import Mathlib

set_option maxRecDepth 40000

/-! Verification of the OLMo data-download tooling: the shared URL-path
normalizer, the manifest URL extractor, the download engine's dispatch,
skip and retry logic (`download_data.py`), the wget-script synthesizer
(`make_wget.py`) and the script target verifier (`check_targets.py`).
Strings are embedded as `List Char`; Python library functions used by the
code (`urllib.parse.urlparse`, `re.findall`, `shlex.split`, `str.strip`,
`int(...)`) are modelled from their documented behaviour. -/

namespace OLMoData

/-- Characters of a string literal; the string representation used throughout. -/
def toL (s : String) : List Char := s.toList

/-- Python whitespace characters recognised by `str.strip` and `\S`. -/
def isWS (c : Char) : Bool :=
  c == ' ' || c == '\t' || c == '\n' || c == '\r' || c == Char.ofNat 11 || c == Char.ofNat 12

/-- A forward slash. -/
def isSlash (c : Char) : Bool := c == '/'

/-- Python `str.lstrip("/")`. -/
def lstripSlash (s : List Char) : List Char := s.dropWhile isSlash

/-- Python `str.startswith` / list-prefix test, used on characters and on segment lists. -/
def startsw {α : Type} [DecidableEq α] : List α → List α → Bool
  | [], _ => true
  | _ :: _, [] => false
  | p :: ps, c :: cs => p == c && startsw ps cs

/-- Python `str.split(sep)` for a one-character separator. -/
def pySplitC (sep : Char) : List Char → List (List Char)
  | [] => [[]]
  | c :: cs =>
    if c == sep then [] :: pySplitC sep cs
    else
      match pySplitC sep cs with
      | l :: ls => (c :: l) :: ls
      | [] => [[c]]

/-- Python `str.strip()` (strip whitespace from both ends). -/
def pyStrip (s : List Char) : List Char :=
  ((s.dropWhile isWS).reverse.dropWhile isWS).reverse

namespace Py

/-- Characters allowed in a URL scheme by `urllib.parse` (letters, digits, `+`, `-`, `.`). -/
def isSchemeCh (c : Char) : Bool := c.isAlpha || c.isDigit || c == '+' || c == '-' || c == '.'

/-- Characters before the first `:` of a string (the candidate scheme). -/
def beforeColon : List Char → List Char
  | [] => []
  | c :: cs => if c == ':' then [] else c :: beforeColon cs

/-- Remainder after the first `:` of a string, if any. -/
def afterColon : List Char → Option (List Char)
  | [] => none
  | c :: cs => if c == ':' then some cs else afterColon cs

/-- Validity of a candidate scheme: nonempty, leading letter, scheme characters only. -/
def schemeOK : List Char → Bool
  | [] => false
  | c :: cs => c.isAlpha && (c :: cs).all isSchemeCh

/-- Modelled from `urllib.parse.urlparse`: drop a leading `scheme:` when the part
before the first colon is a valid scheme name. -/
def stripScheme (s : List Char) : List Char :=
  (afterColon s).elim s (fun rest => if schemeOK (beforeColon s) then rest else s)

/-- Modelled from `urllib.parse.urlparse`: when the (scheme-stripped) URL starts
with `//`, drop the network-location part, which extends to the first `/`, `?` or `#`. -/
def stripNetloc (s : List Char) : List Char :=
  if startsw (toL "//") s then (s.drop 2).dropWhile (fun c => !(c == '/' || c == '?' || c == '#'))
  else s

/-- Modelled from `urllib.parse.uses_params`: the schemes for which `urlparse`
splits a `;params` suffix off the final path segment; note that the empty
scheme is a member, so scheme-less relative references are also split. -/
def usesParams : List (List Char) :=
  [[], toL "ftp", toL "hdl", toL "prospero", toL "http", toL "imap", toL "https",
   toL "shttp", toL "rtsp", toL "rtspu", toL "sip", toL "sips", toL "mms",
   toL "sftp", toL "tel"]

/-- Modelled from `urllib.parse.urlsplit`: the lowercased scheme of a URL, empty
when the part before the first colon is not a valid scheme name (or there is no
colon at all). -/
def urlScheme (s : List Char) : List Char :=
  (afterColon s).elim []
    (fun _ => if schemeOK (beforeColon s) then (beforeColon s).map Char.toLower else [])

/-- The part of a string after its last `/` (the whole string when it has none). -/
def lastSeg (u : List Char) : List Char :=
  (u.reverse.takeWhile (fun c => !(c == '/'))).reverse

/-- Modelled from `urllib.parse._splitparams`: when the segment after the last
`/` contains a `;`, cut the string at the first `;` of that segment (a `;`
before the last `/` is left alone). -/
def dropParams (u : List Char) : List Char :=
  if (lastSeg u).any (fun c => c == ';') then
    u.take (u.length - (lastSeg u).length) ++ (lastSeg u).takeWhile (fun c => !(c == ';'))
  else u

/-- Modelled from `urllib.parse.urlsplit(url).path`: strip scheme and netloc, then
take everything before the query (`?`) or fragment (`#`). -/
def rawPath (url : List Char) : List Char :=
  (stripNetloc (stripScheme url)).takeWhile (fun c => !(c == '?' || c == '#'))

/-- Modelled from `urllib.parse.urlparse(url).path`: the split path with, for a
scheme in `uses_params` (including the empty scheme of a relative reference),
any `;params` suffix of the final segment removed. -/
def urlPath (url : List Char) : List Char :=
  if usesParams.contains (urlScheme url) then dropParams (rawPath url) else rawPath url

end Py

namespace DD

/-- `download_data.py` lines 93-111: `normalize_relative_path(url, trim_prefix)`.
Take the URL's path (`or "/"` when empty), strip leading slashes, and when the
result starts with the slash-stripped trim argument remove it and strip the
leading slashes that result. -/
def normalize_relative_path (url trimArg : List Char) : List Char :=
  let parsed := Py.urlPath url
  let path := if parsed.isEmpty then toL "/" else parsed
  let rel := lstripSlash path
  let trim := lstripSlash trimArg
  if !trim.isEmpty && startsw trim rel then lstripSlash (rel.drop trim.length) else rel

end DD

namespace MW

/-- `make_wget.py` lines 41-47: `normalize_relative_path(url, trim_prefix)`,
the script synthesizer's copy of the normalizer. -/
def normalize_relative_path (url trimArg : List Char) : List Char :=
  let parsed := Py.urlPath url
  let path := if parsed.isEmpty then toL "/" else parsed
  let rel := lstripSlash path
  let trim := lstripSlash trimArg
  if !trim.isEmpty && startsw trim rel then lstripSlash (rel.drop trim.length) else rel

end MW

/-- Follows the spec's words (section 4.1): "take its path component only; strip any
leading slash; if the result starts with `trimPrefix` (also slash-stripped), remove
that prefix and any resulting leading slash". Stated on an already-extracted path
component, for comparison with the code's normalizer. -/
def specNormalizePath (path trimArg : List Char) : List Char :=
  let rel := lstripSlash path
  let trim := lstripSlash trimArg
  if startsw trim rel then lstripSlash (rel.drop trim.length) else rel

/-- Lexical resolution of a segment list against the filesystem, as the OS resolves
the joined path `dataRoot/rel`: `..` pops a directory, `.` and empty segments vanish. -/
def resolveSegs (segs : List (List Char)) : List (List Char) :=
  segs.foldl
    (fun acc seg =>
      if seg = toL ".." then acc.dropLast
      else if seg = [] ∨ seg = toL "." then acc
      else acc ++ [seg])
    []

end OLMoData

namespace OLMoData

theorem dropWhile_append_all {α : Type} (p : α → Bool) (a b : List α)
    (h : ∀ x ∈ a, p x = true) : (a ++ b).dropWhile p = b.dropWhile p := by
  induction a with
  | nil => rfl
  | cons c cs ih =>
    have hc : p c = true := h c (by simp)
    simp only [List.cons_append, List.dropWhile_cons_of_pos hc]
    exact ih (fun x hx => h x (by simp [hx]))

theorem dropWhile_eq_nil_of_all {α : Type} (p : α → Bool) (a : List α)
    (h : ∀ x ∈ a, p x = true) : a.dropWhile p = [] := by
  have := dropWhile_append_all p a [] h
  simpa using this

theorem dropWhile_append_of_ne {α : Type} (p : α → Bool) (a b : List α)
    (h : a.dropWhile p ≠ []) : (a ++ b).dropWhile p = a.dropWhile p ++ b := by
  induction a with
  | nil => simp at h
  | cons c cs ih =>
    cases hpc : p c with
    | true =>
      rw [List.dropWhile_cons_of_pos hpc] at h
      simp only [List.cons_append, List.dropWhile_cons_of_pos hpc]
      exact ih h
    | false =>
      have h1 : ¬ p c = true := by simp [hpc]
      simp only [List.cons_append]
      rw [List.dropWhile_cons_of_neg h1, List.dropWhile_cons_of_neg h1]
      simp

theorem head?_dropWhile_false {α : Type} (p : α → Bool) (l : List α) :
    ∀ c, (l.dropWhile p).head? = some c → p c = false := by
  induction l with
  | nil => intro c h; simp at h
  | cons x xs ih =>
    intro c h
    cases hpx : p x with
    | true => rw [List.dropWhile_cons_of_pos hpx] at h; exact ih c h
    | false =>
      rw [List.dropWhile_cons_of_neg (by simp [hpx])] at h
      simp only [List.head?_cons, Option.some.injEq] at h
      exact h ▸ hpx

theorem dropWhile_head_id {α : Type} (p : α → Bool) (l : List α)
    (h : ∀ c, l.head? = some c → p c = false) : l.dropWhile p = l := by
  cases l with
  | nil => rfl
  | cons x xs => exact List.dropWhile_cons_of_neg (by simp [h x rfl])

theorem dropWhile_idem {α : Type} (p : α → Bool) (l : List α) :
    (l.dropWhile p).dropWhile p = l.dropWhile p :=
  dropWhile_head_id p _ (head?_dropWhile_false p l)

theorem all_of_dropWhile_nil {α : Type} (p : α → Bool) (l : List α)
    (h : l.dropWhile p = []) : ∀ x ∈ l, p x = true := by
  induction l with
  | nil => simp
  | cons c cs ih =>
    cases hpc : p c with
    | false => rw [List.dropWhile_cons_of_neg (by simp [hpc])] at h; simp at h
    | true =>
      rw [List.dropWhile_cons_of_pos hpc] at h
      intro x hx
      rcases List.mem_cons.mp hx with rfl | hx2
      · exact hpc
      · exact ih h x hx2

theorem takeWhile_append_all {α : Type} (p : α → Bool) (a b : List α)
    (h : ∀ x ∈ a, p x = true) : (a ++ b).takeWhile p = a ++ b.takeWhile p := by
  induction a with
  | nil => rfl
  | cons c cs ih =>
    have hc : p c = true := h c (by simp)
    simp only [List.cons_append, List.takeWhile_cons_of_pos hc]
    rw [ih (fun x hx => h x (by simp [hx]))]

theorem takeWhile_eq_self_of_all {α : Type} (p : α → Bool) (a : List α)
    (h : ∀ x ∈ a, p x = true) : a.takeWhile p = a := by
  have := takeWhile_append_all p a [] h
  simpa using this

theorem takeWhile_head_nil {α : Type} (p : α → Bool) (l : List α) (c : α)
    (hc : l.head? = some c) (hpc : p c = false) : l.takeWhile p = [] := by
  cases l with
  | nil => rfl
  | cons x xs =>
    simp only [List.head?_cons, Option.some.injEq] at hc
    rcases hc with rfl
    exact List.takeWhile_cons_of_neg (by simp [hpc])

theorem mem_takeWhile_pred {α : Type} (p : α → Bool) (l : List α) (c : α)
    (h : c ∈ l.takeWhile p) : p c = true := by
  induction l with
  | nil => simp [List.takeWhile] at h
  | cons x xs ih =>
    cases hpx : p x with
    | true =>
      rw [List.takeWhile_cons_of_pos hpx] at h
      rcases List.mem_cons.mp h with rfl | h2
      · exact hpx
      · exact ih h2
    | false =>
      rw [List.takeWhile_cons_of_neg (by simp [hpx])] at h
      simp at h

theorem mem_of_mem_takeWhile {α : Type} (p : α → Bool) (l : List α) (c : α)
    (h : c ∈ l.takeWhile p) : c ∈ l := by
  induction l with
  | nil => simp [List.takeWhile] at h
  | cons x xs ih =>
    cases hpx : p x with
    | true =>
      rw [List.takeWhile_cons_of_pos hpx] at h
      rcases List.mem_cons.mp h with rfl | h2
      · exact List.mem_cons_self _ _
      · exact List.mem_cons_of_mem _ (ih h2)
    | false =>
      rw [List.takeWhile_cons_of_neg (by simp [hpx])] at h
      simp at h

theorem mem_of_mem_dropWhile {α : Type} (p : α → Bool) (l : List α) (c : α)
    (h : c ∈ l.dropWhile p) : c ∈ l := by
  induction l with
  | nil => simp at h
  | cons x xs ih =>
    cases hpx : p x with
    | true => rw [List.dropWhile_cons_of_pos hpx] at h; exact List.mem_cons_of_mem _ (ih h)
    | false => rw [List.dropWhile_cons_of_neg (by simp [hpx])] at h; exact h

theorem startsw_append_self {α : Type} [DecidableEq α] (p r : List α) :
    startsw p (p ++ r) = true := by
  induction p with
  | nil => rfl
  | cons c cs ih => simp [startsw, ih]

theorem eq_append_of_startsw {α : Type} [DecidableEq α] {p s : List α}
    (h : startsw p s = true) : s = p ++ s.drop p.length := by
  induction p generalizing s with
  | nil => simp
  | cons c cs ih =>
    cases s with
    | nil => simp [startsw] at h
    | cons x xs =>
      simp only [startsw, Bool.and_eq_true, beq_iff_eq] at h
      obtain ⟨rfl, h2⟩ := h
      simp only [List.cons_append, List.length_cons, List.drop_succ_cons, List.cons.injEq,
        true_and]
      exact ih h2

end OLMoData

namespace OLMoData

theorem afterColon_append_colon (a r : List Char) (h : (':' : Char) ∉ a) :
    Py.afterColon (a ++ ':' :: r) = some r := by
  induction a with
  | nil => simp [Py.afterColon]
  | cons c cs ih =>
    have hc : ¬ c = ':' := fun hcc => h (by simp [hcc])
    simp only [List.cons_append, Py.afterColon, beq_iff_eq, hc, if_false]
    exact ih (fun hm => h (List.mem_cons_of_mem _ hm))

theorem beforeColon_append_colon (a r : List Char) (h : (':' : Char) ∉ a) :
    Py.beforeColon (a ++ ':' :: r) = a := by
  induction a with
  | nil => simp [Py.beforeColon]
  | cons c cs ih =>
    have hc : ¬ c = ':' := fun hcc => h (by simp [hcc])
    have ih' := ih (fun hm => h (List.mem_cons_of_mem _ hm))
    simp only [List.cons_append, Py.beforeColon, beq_iff_eq, hc, if_false]
    exact congrArg (c :: ·) ih' 

theorem afterColon_eq_none (s : List Char) (h : (':' : Char) ∉ s) :
    Py.afterColon s = none := by
  induction s with
  | nil => rfl
  | cons c cs ih =>
    have hc : ¬ c = ':' := fun hcc => h (by simp [hcc])
    simp only [Py.afterColon, beq_iff_eq, hc, if_false]
    exact ih (fun hm => h (List.mem_cons_of_mem _ hm))

theorem rawPath_mk (scheme host path qf : List Char)
    (hs : scheme = toL "http" ∨ scheme = toL "https")
    (hhost : ∀ c ∈ host, ¬ c = '/' ∧ ¬ c = '?' ∧ ¬ c = '#')
    (hpath : ∀ c ∈ path, ¬ c = '?' ∧ ¬ c = '#')
    (hpsl : path = [] ∨ path.head? = some '/')
    (hqf : qf = [] ∨ qf.head? = some '?' ∨ qf.head? = some '#') :
    Py.rawPath (scheme ++ toL "://" ++ host ++ path ++ qf) = path := by
  have hsep : toL "://" = ':' :: toL "//" := by decide
  have hcol : (':' : Char) ∉ scheme := by rcases hs with rfl | rfl <;> decide
  have hurl : scheme ++ toL "://" ++ host ++ path ++ qf
      = scheme ++ ':' :: (toL "//" ++ (host ++ (path ++ qf))) := by
    rw [hsep]; simp [List.append_assoc]
  rw [Py.rawPath, hurl]
  have hac := afterColon_append_colon scheme (toL "//" ++ (host ++ (path ++ qf))) hcol
  have hbc := beforeColon_append_colon scheme (toL "//" ++ (host ++ (path ++ qf))) hcol
  have hok : Py.schemeOK scheme = true := by rcases hs with rfl | rfl <;> decide
  rw [Py.stripScheme, hac]
  simp only [Option.elim, hbc, hok, if_true]
  rw [Py.stripNetloc, if_pos (startsw_append_self (toL "//") _)]
  have hdrop : (toL "//" ++ (host ++ (path ++ qf))).drop 2 = host ++ (path ++ qf) := by
    have h2 : toL "//" = ['/', '/'] := by decide
    rw [h2]; rfl
  rw [hdrop]
  have hpredh : ∀ c ∈ host, (!(c == '/' || c == '?' || c == '#')) = true := by
    intro c hc
    obtain ⟨h1, h2, h3⟩ := hhost c hc
    simp [h1, h2, h3]
  rw [dropWhile_append_all _ host (path ++ qf) hpredh]
  have hqstop : ∀ c, qf.head? = some c → (!(c == '/' || c == '?' || c == '#')) = false := by
    intro c hc
    rcases hqf with rfl | hq | hq
    · simp at hc
    · rw [hq] at hc
      simp only [Option.some.injEq] at hc
      simp [← hc]
    · rw [hq] at hc
      simp only [Option.some.injEq] at hc
      simp [← hc]
  have hqtake : qf.takeWhile (fun c => !(c == '?' || c == '#')) = [] := by
    rcases hqf with rfl | hq | hq
    · rfl
    · exact takeWhile_head_nil _ _ '?' hq (by simp)
    · exact takeWhile_head_nil _ _ '#' hq (by simp)
  rcases hpsl with rfl | hhead
  · simp only [List.nil_append]
    rw [dropWhile_head_id _ qf hqstop]
    exact hqtake
  · obtain ⟨ps, rfl⟩ : ∃ ps, path = '/' :: ps := by
      cases path with
      | nil => simp at hhead
      | cons a as =>
        simp only [List.head?_cons, Option.some.injEq] at hhead
        exact ⟨as, by rw [hhead]⟩
    rw [dropWhile_head_id _ (('/' :: ps) ++ qf) (by
      intro c hc
      simp only [List.cons_append, List.head?_cons, Option.some.injEq] at hc
      simp [← hc])]
    have hpredp : ∀ c ∈ ('/' :: ps), (!(c == '?' || c == '#')) = true := by
      intro c hc
      obtain ⟨h1, h2⟩ := hpath c hc
      simp [h1, h2]
    rw [takeWhile_append_all _ _ qf hpredp, hqtake, List.append_nil]

theorem urlScheme_mk (scheme rest : List Char)
    (hs : scheme = toL "http" ∨ scheme = toL "https") :
    Py.urlScheme (scheme ++ ':' :: rest) = scheme := by
  have hcol : (':' : Char) ∉ scheme := by rcases hs with rfl | rfl <;> decide
  have hac := afterColon_append_colon scheme rest hcol
  have hbc := beforeColon_append_colon scheme rest hcol
  rw [Py.urlScheme, hac]
  simp only [Option.elim, hbc]
  rcases hs with rfl | rfl <;> decide

theorem mem_lastSeg (u : List Char) (c : Char) (h : c ∈ Py.lastSeg u) : c ∈ u := by
  unfold Py.lastSeg at h
  rw [List.mem_reverse] at h
  exact List.mem_reverse.mp (mem_of_mem_takeWhile _ _ _ h)

theorem dropParams_id (u : List Char)
    (h : (Py.lastSeg u).any (fun c => c == ';') = false) : Py.dropParams u = u := by
  unfold Py.dropParams
  rw [if_neg (by simp [h])]

theorem dropParams_no_semi (u : List Char) (h : (';' : Char) ∉ u) :
    Py.dropParams u = u := by
  apply dropParams_id
  cases hc : (Py.lastSeg u).any (fun c => c == ';') with
  | false => rfl
  | true =>
    obtain ⟨c, hcm, hcc⟩ := List.any_eq_true.mp hc
    have hcs : c = ';' := by simpa using hcc
    exact absurd (mem_lastSeg u ';' (hcs ▸ hcm)) h

theorem mem_dropParams (u : List Char) (c : Char) (h : c ∈ Py.dropParams u) : c ∈ u := by
  unfold Py.dropParams at h
  split at h
  · rcases List.mem_append.mp h with h1 | h1
    · exact List.take_subset _ _ h1
    · exact mem_lastSeg u c (mem_of_mem_takeWhile _ _ _ h1)
  · exact h

theorem urlPath_mk (scheme host path qf : List Char)
    (hs : scheme = toL "http" ∨ scheme = toL "https")
    (hhost : ∀ c ∈ host, ¬ c = '/' ∧ ¬ c = '?' ∧ ¬ c = '#')
    (hpath : ∀ c ∈ path, ¬ c = '?' ∧ ¬ c = '#')
    (hpsl : path = [] ∨ path.head? = some '/')
    (hqf : qf = [] ∨ qf.head? = some '?' ∨ qf.head? = some '#') :
    Py.urlPath (scheme ++ toL "://" ++ host ++ path ++ qf) = Py.dropParams path := by
  have hsep : toL "://" = ':' :: toL "//" := by decide
  have hurl : scheme ++ toL "://" ++ host ++ path ++ qf
      = scheme ++ ':' :: (toL "//" ++ (host ++ (path ++ qf))) := by
    rw [hsep]; simp [List.append_assoc]
  have hsch : Py.urlScheme (scheme ++ toL "://" ++ host ++ path ++ qf) = scheme := by
    rw [hurl]; exact urlScheme_mk scheme _ hs
  have hguard : Py.usesParams.contains scheme = true := by
    rcases hs with rfl | rfl <;> decide
  unfold Py.urlPath
  rw [hsch, if_pos hguard]
  exact congrArg Py.dropParams (rawPath_mk scheme host path qf hs hhost hpath hpsl hqf)

theorem lstrip_pathOr (parsed : List Char) :
    lstripSlash (if parsed.isEmpty then toL "/" else parsed) = lstripSlash parsed := by
  cases parsed with
  | nil => decide
  | cons c cs => simp

theorem normalize_eq_spec (url trimArg : List Char) :
    DD.normalize_relative_path url trimArg = specNormalizePath (Py.urlPath url) trimArg := by
  unfold DD.normalize_relative_path specNormalizePath
  simp only [lstrip_pathOr]
  cases htrim : lstripSlash trimArg with
  | nil =>
    simp only [List.isEmpty_nil, Bool.not_true, Bool.false_and, if_false, startsw, if_true,
      List.length_nil, List.drop_zero]
    exact (dropWhile_idem isSlash _).symm
  | cons t ts =>
    simp only [List.isEmpty_cons, Bool.not_false, Bool.true_and]

end OLMoData

namespace OLMoData

theorem specNormalize_trim (t rel : List Char) (h : rel.head? ≠ some '/') :
    specNormalizePath (t ++ rel) t = rel := by
  have hrelid : lstripSlash rel = rel := by
    apply dropWhile_head_id
    intro c hc
    cases hco : isSlash c with
    | false => rfl
    | true =>
      have hcc : c = '/' := by simpa [isSlash] using hco
      exact absurd (hcc ▸ hc) h
  unfold specNormalizePath
  cases hlt : lstripSlash t with
  | nil =>
    have hall : ∀ x ∈ t, isSlash x = true := all_of_dropWhile_nil isSlash t hlt
    have happ : lstripSlash (t ++ rel) = rel := by
      rw [lstripSlash, dropWhile_append_all _ t rel hall]
      exact hrelid
    simp only [happ, startsw, if_true, List.length_nil, List.drop_zero]
    exact hrelid
  | cons a as =>
    have hne : lstripSlash t ≠ [] := by rw [hlt]; simp
    have happ : lstripSlash (t ++ rel) = lstripSlash t ++ rel :=
      dropWhile_append_of_ne _ t rel hne
    simp only [happ, hlt]
    rw [if_pos (startsw_append_self _ _), List.drop_left]
    exact hrelid

/-- Claim C1 counterexample: the URL `https://h/p/a;b` has path `/p/a;b`, which
is the trim argument `/p/` followed by `a;b` (no leading slash), so the claimed
identity predicts the result `a;b`; but for http(s) URLs `urlparse` splits the
`;params` suffix off the final path segment, and both normalizers return `a`. -/
theorem claim_C1_counterexample :
    toL "/p/a;b" = toL "/p/" ++ toL "a;b"
    ∧ DD.normalize_relative_path (toL "https://h/p/a;b") (toL "/p/") = toL "a"
    ∧ MW.normalize_relative_path (toL "https://h/p/a;b") (toL "/p/") = toL "a"
    ∧ (DD.normalize_relative_path (toL "https://h/p/a;b") (toL "/p/") == toL "a;b")
        = false := by
  refine ⟨by decide, by decide, by decide, by decide⟩

/-- Claim C1 (amended): for every http/https URL, the normalizer returns the
URL's urlparse path component — its path with any `;params` suffix of the final
segment removed, and scheme, host, query and fragment discarded — with leading
slashes stripped and, when that starts with the slash-stripped trim argument,
with the trim and the resulting leading slashes removed, as the spec's formula
states; the identity "path equals `trim ++ rel` implies the result is `rel`"
holds whenever the path contains no semicolon; and the Download Engine's and
the Script Synthesizer's normalizers are the same function. -/
theorem claim_C1_amended (scheme host path qf trimArg : List Char)
    (hs : scheme = toL "http" ∨ scheme = toL "https")
    (hhost : ∀ c ∈ host, ¬ c = '/' ∧ ¬ c = '?' ∧ ¬ c = '#')
    (hpath : ∀ c ∈ path, ¬ c = '?' ∧ ¬ c = '#')
    (hpsl : path = [] ∨ path.head? = some '/')
    (hqf : qf = [] ∨ qf.head? = some '?' ∨ qf.head? = some '#') :
    DD.normalize_relative_path (scheme ++ toL "://" ++ host ++ path ++ qf) trimArg
      = specNormalizePath (Py.dropParams path) trimArg
    ∧ (∀ rel, path = trimArg ++ rel → rel.head? ≠ some '/' → (';' : Char) ∉ path →
        DD.normalize_relative_path (scheme ++ toL "://" ++ host ++ path ++ qf) trimArg = rel)
    ∧ (∀ u t, DD.normalize_relative_path u t = MW.normalize_relative_path u t) := by
  have hup := urlPath_mk scheme host path qf hs hhost hpath hpsl hqf
  have h1 : DD.normalize_relative_path (scheme ++ toL "://" ++ host ++ path ++ qf) trimArg
      = specNormalizePath (Py.dropParams path) trimArg := by
    rw [normalize_eq_spec, hup]
  refine ⟨h1, ?_, fun u t => rfl⟩
  intro rel hpe hrh hsemi
  rw [h1, dropParams_no_semi path hsemi, hpe]
  exact specNormalize_trim trimArg rel hrh

/-- Witness for the amended C1 at the spec's running example: URL
`https://h/p/a/x` (no semicolon) with trim prefix `/p/` normalizes to `a/x`. -/
theorem claim_C1_amended_witness :
    DD.normalize_relative_path
      (toL "https" ++ toL "://" ++ toL "h" ++ toL "/p/a/x" ++ ([] : List Char))
      (toL "/p/") = toL "a/x" :=
  (claim_C1_amended (toL "https") (toL "h") (toL "/p/a/x") [] (toL "/p/")
      (Or.inr rfl) (by decide) (by decide) (Or.inr (by decide)) (Or.inl rfl)).2.1
    (toL "a/x") (by decide) (by decide) (by decide)

theorem normalize_head_ne_slash (url trimArg : List Char) :
    (DD.normalize_relative_path url trimArg).head? ≠ some '/' := by
  have hh : ∀ (l : List Char) (c : Char), (lstripSlash l).head? = some c → ¬ c = '/' := by
    intro l c hl hc
    have := head?_dropWhile_false isSlash l c hl
    rw [hc] at this
    simp [isSlash] at this
  intro hcon
  dsimp only [DD.normalize_relative_path] at hcon
  split at hcon
  all_goals split at hcon
  all_goals exact hh _ _ hcon rfl

theorem mem_normalize (url trimArg : List Char) (c : Char)
    (h : c ∈ DD.normalize_relative_path url trimArg) : c ∈ Py.urlPath url ∨ c = '/' := by
  have step : ∀ l : List Char, c ∈ lstripSlash l → c ∈ l := fun l => mem_of_mem_dropWhile _ l c
  have slash : c ∈ toL "/" → c = '/' := by
    intro hc
    have h2 : toL "/" = ['/'] := by decide
    rw [h2] at hc
    simpa using hc
  dsimp only [DD.normalize_relative_path] at h
  split at h
  · split at h
    · exact Or.inr (slash (step _ (List.drop_subset _ _ (step _ h))))
    · exact Or.inr (slash (step _ h))
  · split at h
    · exact Or.inl (step _ (List.drop_subset _ _ (step _ h)))
    · exact Or.inl (step _ h)

theorem mem_rawPath_pred (u : List Char) (c : Char) (h : c ∈ Py.rawPath u) :
    (!(c == '?' || c == '#')) = true := by
  unfold Py.rawPath at h
  exact mem_takeWhile_pred _ _ c h

theorem mem_urlPath_pred (u : List Char) (c : Char) (h : c ∈ Py.urlPath u) :
    (!(c == '?' || c == '#')) = true := by
  unfold Py.urlPath at h
  split at h
  · exact mem_rawPath_pred u c (mem_dropParams _ c h)
  · exact mem_rawPath_pred u c h

theorem rawPath_of_plain (r : List Char)
    (hcol : (':' : Char) ∉ r)
    (hsl : r.head? ≠ some '/')
    (hqh : ∀ c ∈ r, (!(c == '?' || c == '#')) = true) :
    Py.rawPath r = r := by
  unfold Py.rawPath
  rw [Py.stripScheme, afterColon_eq_none r hcol]
  simp only [Option.elim]
  rw [Py.stripNetloc]
  have hsw : startsw (toL "//") r = false := by
    have h2 : toL "//" = ['/', '/'] := by decide
    rw [h2]
    cases r with
    | nil => rfl
    | cons a as =>
      have : ¬ a = '/' := by
        intro hav
        exact hsl (by simp [hav])
      simp [startsw, Ne.symm this]
  rw [if_neg (by simp [hsw])]
  exact takeWhile_eq_self_of_all _ r hqh

theorem urlPath_of_plain (r : List Char)
    (hcol : (':' : Char) ∉ r)
    (hsl : r.head? ≠ some '/')
    (hqh : ∀ c ∈ r, (!(c == '?' || c == '#')) = true)
    (hsemi : (Py.lastSeg r).any (fun c => c == ';') = false) :
    Py.urlPath r = r := by
  have hsch : Py.urlScheme r = [] := by
    unfold Py.urlScheme
    rw [afterColon_eq_none r hcol]
    rfl
  unfold Py.urlPath
  rw [hsch, if_pos (by decide : Py.usesParams.contains ([] : List Char) = true),
    rawPath_of_plain r hcol hsl hqh]
  exact dropParams_id r hsemi

/-- Claim C10 counterexample: for the URL `https://h/p/p/x` and trim prefix `/p/`,
the normalizer yields `p/x`, but re-applying it to that already-normalized relative
path strips the trim prefix a second time and yields `x`, so normalization is not
idempotent: the two results compare unequal. A second failure mode: the URL
`s3://h/a;b` (its scheme is outside urlparse's `uses_params` family) normalizes
to `a;b`, but re-normalizing `a;b` — now with the empty scheme, which is in the
family — splits the `;params` suffix off and yields `a`. -/
theorem claim_C10_counterexample :
    DD.normalize_relative_path (toL "https://h/p/p/x") (toL "/p/") = toL "p/x"
    ∧ DD.normalize_relative_path
        (DD.normalize_relative_path (toL "https://h/p/p/x") (toL "/p/")) (toL "/p/") = toL "x"
    ∧ (DD.normalize_relative_path
          (DD.normalize_relative_path (toL "https://h/p/p/x") (toL "/p/")) (toL "/p/")
        == DD.normalize_relative_path (toL "https://h/p/p/x") (toL "/p/")) = false
    ∧ DD.normalize_relative_path (toL "s3://h/a;b") [] = toL "a;b"
    ∧ DD.normalize_relative_path
        (DD.normalize_relative_path (toL "s3://h/a;b") []) [] = toL "a" := by
  refine ⟨by decide, by decide, by decide, by decide, by decide⟩

theorem normalize_nil (t : List Char) : DD.normalize_relative_path [] t = [] := by
  dsimp only [DD.normalize_relative_path]
  have h0 : Py.urlPath [] = [] := rfl
  rw [h0]
  simp only [List.isEmpty_nil, if_true]
  have hsl2 : lstripSlash (toL "/") = [] := by decide
  rw [hsl2]
  cases hlt : lstripSlash t with
  | nil => simp
  | cons a as => simp [startsw]

theorem normalize_fixpoint (r t : List Char)
    (hup : Py.urlPath r = r)
    (hrelid : lstripSlash r = r)
    (ht : lstripSlash t = [] ∨ startsw (lstripSlash t) r = false) :
    DD.normalize_relative_path r t = r := by
  cases r with
  | nil => exact normalize_nil t
  | cons a as =>
    dsimp only [DD.normalize_relative_path]
    rw [hup]
    simp only [List.isEmpty_cons, Bool.false_eq_true, if_false]
    rw [hrelid]
    rcases ht with htn | hts
    · rw [htn]; simp
    · rw [hts]; simp

/-- Claim C10 (amended): re-applying the normalizer to an already-normalized
relative path is a no-op provided that path contains no colon (else urlparse
treats its first segment as a scheme), the segment after its last slash
contains no semicolon (else urlparse splits that `;params` suffix off), and the
path does not itself start with the slash-stripped trim prefix (else the
prefix is stripped a second time). -/
theorem claim_C10_amended (u t : List Char)
    (hc : (':' : Char) ∉ DD.normalize_relative_path u t)
    (hsemi : (Py.lastSeg (DD.normalize_relative_path u t)).any (fun c => c == ';') = false)
    (ht : lstripSlash t = [] ∨ startsw (lstripSlash t) (DD.normalize_relative_path u t) = false) :
    DD.normalize_relative_path (DD.normalize_relative_path u t) t
      = DD.normalize_relative_path u t := by
  have hsl := normalize_head_ne_slash u t
  have hqh : ∀ c ∈ DD.normalize_relative_path u t, (!(c == '?' || c == '#')) = true := by
    intro c hcm
    rcases mem_normalize u t c hcm with hin | rfl
    · exact mem_urlPath_pred u c hin
    · rfl
  have hup : Py.urlPath (DD.normalize_relative_path u t) = DD.normalize_relative_path u t :=
    urlPath_of_plain _ hc hsl hqh hsemi
  have hrelid : lstripSlash (DD.normalize_relative_path u t) = DD.normalize_relative_path u t := by
    apply dropWhile_head_id
    intro c hcc
    cases hco : isSlash c with
    | false => rfl
    | true =>
      have : c = '/' := by simpa [isSlash] using hco
      exact absurd (this ▸ hcc) hsl
  exact normalize_fixpoint _ t hup hrelid ht

/-- Witness for the amended C10: the normalized path `a/x` of `https://h/p/a/x`
under trim prefix `/p/` is a fixed point of the normalizer. -/
theorem claim_C10_amended_witness :
    DD.normalize_relative_path
        (DD.normalize_relative_path (toL "https://h/p/a/x") (toL "/p/")) (toL "/p/")
      = DD.normalize_relative_path (toL "https://h/p/a/x") (toL "/p/") :=
  claim_C10_amended (toL "https://h/p/a/x") (toL "/p/") (by decide) (by decide)
    (Or.inr (by decide))

/-- Claim C3 counterexample: the URL `https://h/../x` (empty trim prefix)
normalizes to `../x`, which contains a parent-directory segment, and resolving
`dataRoot/../x` lexically escapes the data root (the root segment `data` is not
a prefix of the resolved segments). -/
theorem claim_C3_counterexample :
    toL ".." ∈ pySplitC '/' (DD.normalize_relative_path (toL "https://h/../x") [])
    ∧ startsw [toL "data"]
        (resolveSegs ([toL "data"]
          ++ pySplitC '/' (DD.normalize_relative_path (toL "https://h/../x") []))) = false := by
  constructor
  · decide
  · decide

theorem normalize_lstrip_fix (url trimArg : List Char) :
    lstripSlash (DD.normalize_relative_path url trimArg)
      = DD.normalize_relative_path url trimArg := by
  dsimp only [DD.normalize_relative_path]
  split
  all_goals split
  all_goals exact dropWhile_idem _ _

/-- Claim C3 (amended): the relative path produced by the normalizer never starts
with a slash (it is a fixed point of leading-slash stripping), but parent-directory
`..` segments of the URL path are preserved, so the resolved destination of a URL
containing `..` segments escapes the data root, as the concrete URL
`https://h/../x` shows. -/
theorem claim_C3_amended :
    (∀ url trimArg : List Char,
      lstripSlash (DD.normalize_relative_path url trimArg)
        = DD.normalize_relative_path url trimArg)
    ∧ DD.normalize_relative_path (toL "https://h/../x") [] = toL "../x"
    ∧ resolveSegs ([toL "data"] ++ pySplitC '/' (toL "../x")) = [toL "x"] := by
  refine ⟨normalize_lstrip_fix, by decide, by decide⟩

end OLMoData

namespace OLMoData

namespace DD

/-- Top-level names bound in the `download_data.py` module when `main` runs:
the imports of lines 22-32 and the module's own definitions (lines 35-181).
`download_one` is not among them. -/
def moduleGlobals : List String :=
  ["argparse", "Path", "re", "sys", "Any", "List", "Set", "urlparse", "yaml",
   "requests", "HTTPAdapter", "Retry", "DATA_KEYS", "make_session",
   "find_urls_from_data_keys", "extract_urls_from_any", "fallback_find_all_urls",
   "normalize_relative_path", "ensure_parent_dir", "file_size", "should_skip",
   "gather_urls", "normalize_prefixes", "main"]

/-- Names bound inside `main` by the time line 243 runs: its locals and the two
names imported at line 239. -/
def mainLocals : List String :=
  ["parser", "args", "data_dir", "f", "yaml_obj", "urls", "include_prefixes",
   "session", "tasks", "kept", "url", "rel", "dst",
   "ThreadPoolExecutor", "as_completed", "errors", "ex", "futs"]

/-- Builtins referenced by the program; none of them is `download_one`. -/
def builtinNames : List String :=
  ["print", "open", "int", "len", "max", "any", "str", "set", "list", "dict",
   "enumerate", "frozenset", "isinstance"]

/-- Python name resolution at line 243: locals, then module globals, then builtins. -/
def resolves (x : String) : Bool :=
  mainLocals.contains x || moduleGlobals.contains x || builtinNames.contains x

/-- Outcome of the dispatch-and-report part of `main` (lines 241-256): either an
uncaught exception escaping `main`, or completion with the post-run failure tally. -/
inductive RunOutcome where
  | uncaught : String → RunOutcome
  | report : Nat → RunOutcome
  deriving DecidableEq

/-- `main` lines 248-251: count every destination that is missing or has
size `<= 0` (file_size returns -1 for a missing file). -/
def postTally (fsx : List Char → Bool) (fsize : List Char → Int)
    (tasks : List (List Char × List Char)) : Nat :=
  (tasks.filter (fun t => !(fsx t.2) || decide (fsize t.2 ≤ 0))).length

/-- `main` line 243: the comprehension
`[ex.submit(download_one, session, url, dst) for url, dst in tasks]` evaluates
the name `download_one` once per task, in the main thread, before calling
`submit`; an unresolved name raises NameError at that point. Returns the number
of futures created. -/
def buildFuts : List (List Char × List Char) → Except String Nat
  | [] => .ok 0
  | _ :: ts =>
    if resolves "download_one" then
      match buildFuts ts with
      | .ok n => .ok (n + 1)
      | .error e => .error e
    else .error "NameError: name download_one is not defined"

/-- `main` lines 241-256: build and dispatch the futures, then re-inspect every
destination. An exception raised while building the futures list propagates out
of the `with` block and aborts `main` before the post-check loop runs. -/
def dispatchPhase (fsx : List Char → Bool) (fsize : List Char → Int)
    (tasks : List (List Char × List Char)) : RunOutcome :=
  match buildFuts tasks with
  | .error e => .uncaught e
  | .ok _ => .report (postTally fsx fsize tasks)

/-- Result of the HEAD metadata probe of line 138: a requests exception
(connection failure or timeout), or a response carrying an optional
`Content-Length` header value. -/
inductive ProbeOutcome where
  | exn : ProbeOutcome
  | response : Option (List Char) → ProbeOutcome

/-- Decimal value of a digit run; `none` as soon as a non-digit appears. -/
def digitsVal (acc : Nat) : List Char → Option Nat
  | [] => some acc
  | c :: cs => if c.isDigit then digitsVal (acc * 10 + (c.toNat - 48)) cs else none

/-- Modelled from Python `int(str)`: surrounding whitespace allowed, optional
sign, at least one digit; anything else raises ValueError (`none` here). -/
def pyInt (s : List Char) : Option Int :=
  match pyStrip s with
  | '+' :: ds => if ds.isEmpty then none else (digitsVal 0 ds).map Int.ofNat
  | '-' :: ds => if ds.isEmpty then none else (digitsVal 0 ds).map (fun n => -(Int.ofNat n))
  | ds => if ds.isEmpty then none else (digitsVal 0 ds).map Int.ofNat

/-- `download_data.py` lines 127-148 `should_skip`, with the number of HEAD
probes issued made explicit (0 or 1). `dstExists` models `dst.exists()`,
`localSize` models `file_size(dst)`, `probe` models `session.head(url,
timeout=20)` together with its `Content-Length` header. Returns (skip?, probes). -/
def should_skip (dstExists : Bool) (localSize : Int) (probe : ProbeOutcome) :
    Bool × Nat :=
  if !dstExists then (false, 0)
  else if localSize < 0 then (false, 0)
  else
    match probe with
    | .exn => (false, 1)
    | .response none => (false, 1)
    | .response (some cl) =>
      match pyInt cl with
      | none => (false, 1)
      | some remote => (decide (remote = localSize), 1)

/-- Outcome the network produces for one HTTP request. -/
inductive Wire where
  | connFail : Wire
  | status : Nat → Wire
  deriving DecidableEq

/-- Final result of a transfer through the retry adapter. -/
inductive XferResult where
  | delivered : Nat → XferResult
  | exhausted : XferResult
  deriving DecidableEq

/-- Retry configuration created by `make_session` (lines 38-53):
`Retry(total=5, connect=5, read=5, backoff_factor=0.5,
status_forcelist=[429,500,502,503,504], allowed_methods=HEAD/GET,
raise_on_status=False)`. -/
structure RetryCfg where
  total : Nat
  backoffFactor : ℚ
  statusForcelist : List Nat

/-- The configuration `make_session` installs on the session. -/
def make_session_retry : RetryCfg :=
  { total := 5, backoffFactor := 1 / 2, statusForcelist := [429, 500, 502, 503, 504] }

/-- Modelled from urllib3 `Retry`: connection failures are always retried
(connect budget), a status is retried iff it is in the forcelist. -/
def retryable (cfg : RetryCfg) : Wire → Bool
  | .connFail => true
  | .status s => cfg.statusForcelist.contains s

/-- Modelled from urllib3 `Retry.get_backoff_time`: no sleep before the second
consecutive retry, then `backoff_factor * 2 ^ (consecutive - 1)` seconds. -/
def get_backoff_time (cfg : RetryCfg) (consecutive : Nat) : ℚ :=
  if consecutive ≤ 1 then 0 else cfg.backoffFactor * 2 ^ (consecutive - 1)

/-- Modelled from urllib3 retry processing: issue request number `idx`; a
retryable outcome consumes one unit of the remaining budget and the attempt is
repeated while budget remains (MaxRetryError once it is gone); a non-retryable
status is delivered as the response. Returns (requests issued, result). -/
def runRetry (cfg : RetryCfg) (server : Nat → Wire) : Nat → Nat → Nat × XferResult
  | 0, idx =>
    if retryable cfg (server idx) then (idx + 1, XferResult.exhausted)
    else
      match server idx with
      | .status s => (idx + 1, XferResult.delivered s)
      | .connFail => (idx + 1, XferResult.exhausted)
  | b + 1, idx =>
    if retryable cfg (server idx) then runRetry cfg server b (idx + 1)
    else
      match server idx with
      | .status s => (idx + 1, XferResult.delivered s)
      | .connFail => (idx + 1, XferResult.exhausted)

/-- A full transfer: the initial request plus up to `cfg.total` retries. -/
def transfer (cfg : RetryCfg) (server : Nat → Wire) : Nat × XferResult :=
  runRetry cfg server cfg.total 0

/-- Per-task result statuses of the spec's data model. -/
inductive TaskStatus where
  | skipped | succeeded | failed
  deriving DecidableEq

/-- What one task execution did: its status and how many HEAD / GET requests it
issued. -/
structure TaskRun where
  status : TaskStatus
  headReqs : Nat
  getReqs : Nat
  deriving DecidableEq

/-- Modelled from the spec: the per-task worker `download_one(session, url, dst)`
named at line 243 but defined nowhere in the program. Spec sections 4.3 and 5:
ensure the parent directory, consult `should_skip` (which probes only when the
destination exists), and otherwise perform the GET transfer through the
session's retry adapter, succeeding on a 2xx/3xx response and failing on a
final error status or on retry exhaustion. -/
def download_one (cfg : RetryCfg) (dstExists : Bool) (localSize : Int)
    (probe : ProbeOutcome) (server : Nat → Wire) : TaskRun :=
  let sk := should_skip dstExists localSize probe
  if sk.1 then { status := .skipped, headReqs := sk.2, getReqs := 0 }
  else
    let tr := transfer cfg server
    match tr.2 with
    | .delivered s =>
      { status := if s < 400 then .succeeded else .failed, headReqs := sk.2, getReqs := tr.1 }
    | .exhausted => { status := .failed, headReqs := sk.2, getReqs := tr.1 }

end DD

end OLMoData

namespace OLMoData

theorem runRetry_pos (cfg : DD.RetryCfg) (server : Nat → DD.Wire) :
    ∀ budget idx, idx + 1 ≤ (DD.runRetry cfg server budget idx).1 := by
  intro budget
  induction budget with
  | zero =>
    intro idx
    simp only [DD.runRetry]
    split
    · simp
    · cases hsi : server idx <;> simp [hsi]
  | succ b ih =>
    intro idx
    simp only [DD.runRetry]
    split
    · have := ih (idx + 1)
      omega
    · cases hsi : server idx <;> simp [hsi]

theorem runRetry_le (cfg : DD.RetryCfg) (server : Nat → DD.Wire) :
    ∀ budget idx, (DD.runRetry cfg server budget idx).1 ≤ idx + budget + 1 := by
  intro budget
  induction budget with
  | zero =>
    intro idx
    simp only [DD.runRetry]
    split
    · simp
    · cases hsi : server idx <;> simp [hsi]
  | succ b ih =>
    intro idx
    simp only [DD.runRetry]
    split
    · have := ih (idx + 1)
      omega
    · cases hsi : server idx <;> simp [hsi]

theorem runRetry_step_retry (cfg : DD.RetryCfg) (server : Nat → DD.Wire)
    (budget idx : Nat) (h : DD.retryable cfg (server idx) = true) :
    DD.runRetry cfg server (budget + 1) idx = DD.runRetry cfg server budget (idx + 1) := by
  simp only [DD.runRetry]
  rw [if_pos h]

theorem runRetry_stop (cfg : DD.RetryCfg) (server : Nat → DD.Wire)
    (budget idx s : Nat) (hsi : server idx = DD.Wire.status s)
    (h : DD.retryable cfg (server idx) = false) :
    DD.runRetry cfg server budget idx = (idx + 1, DD.XferResult.delivered s) := by
  cases budget with
  | zero =>
    simp only [DD.runRetry]
    rw [if_neg (by simp [h]), hsi]
  | succ b =>
    simp only [DD.runRetry]
    rw [if_neg (by simp [h]), hsi]

theorem transfer_pos (cfg : DD.RetryCfg) (server : Nat → DD.Wire) :
    1 ≤ (DD.transfer cfg server).1 :=
  runRetry_pos cfg server cfg.total 0

theorem download_one_not_skipped (cfg : DD.RetryCfg) (dstExists : Bool)
    (localSize : Int) (probe : DD.ProbeOutcome) (server : Nat → DD.Wire)
    (h : (DD.should_skip dstExists localSize probe).1 = false) :
    (DD.download_one cfg dstExists localSize probe server).getReqs
        = (DD.transfer cfg server).1
    ∧ (DD.download_one cfg dstExists localSize probe server).headReqs
        = (DD.should_skip dstExists localSize probe).2 := by
  dsimp only [DD.download_one]
  rw [h]
  simp only [Bool.false_eq_true, if_false]
  cases htr : (DD.transfer cfg server).2 <;> simp [htr]

/-- Claim C2 counterexample: with one task and an empty filesystem, building the
futures list raises NameError in the main thread (the name `download_one`
resolves to nothing), so the run never reaches the post-run re-inspection: the
outcome is the uncaught NameError, not the one-failure report the claim
describes. -/
theorem claim_C2_counterexample :
    DD.dispatchPhase (fun _ => false) (fun _ => -1) [(toL "https://h/a", toL "/d/a")]
        = DD.RunOutcome.uncaught "NameError: name download_one is not defined"
    ∧ decide (DD.dispatchPhase (fun _ => false) (fun _ => -1)
          [(toL "https://h/a", toL "/d/a")]
        = DD.RunOutcome.report 1) = false := by
  refine ⟨by decide, by decide⟩

/-- Claim C2 (amended): `download_one` is defined nowhere in the program, but the
name is evaluated in the MAIN thread while the futures list is built, so a run
with at least one task raises NameError there and terminates before dispatching
anything: no file content is ever written, no exception is parked in a future,
and the post-run re-inspection is never reached. -/
theorem claim_C2_amended (fsx : List Char → Bool) (fsize : List Char → Int)
    (tasks : List (List Char × List Char)) (h : tasks ≠ []) :
    DD.dispatchPhase fsx fsize tasks
      = DD.RunOutcome.uncaught "NameError: name download_one is not defined" := by
  cases tasks with
  | nil => exact absurd rfl h
  | cons t ts =>
    have hres : DD.resolves "download_one" = false := by decide
    simp only [DD.dispatchPhase, DD.buildFuts, hres, Bool.false_eq_true, if_false]

/-- Witness for the amended C2 at a one-task run. -/
theorem claim_C2_amended_witness :
    DD.dispatchPhase (fun _ => false) (fun _ => -1) [(toL "u", toL "d")]
      = DD.RunOutcome.uncaught "NameError: name download_one is not defined" :=
  claim_C2_amended (fun _ => false) (fun _ => -1) [(toL "u", toL "d")] (by decide)

/-- Claim C4 counterexample: a server that always answers 503 receives 6
requests from the session's retry adapter (`Retry(total=5)` means 5 retries
after the initial attempt), not at most 5 as the claim states; and the backoff
before the first retry is 0 seconds, not 0.5. -/
theorem claim_C4_counterexample :
    (DD.transfer DD.make_session_retry (fun _ => DD.Wire.status 503)).1 = 6
    ∧ decide ((DD.transfer DD.make_session_retry (fun _ => DD.Wire.status 503)).1 ≤ 5)
        = false
    ∧ DD.get_backoff_time DD.make_session_retry 1 = 0 := by
  refine ⟨by decide, by decide, by norm_num [DD.get_backoff_time]⟩

/-- Claim C4 (amended): the session retries connection failures and HTTP
429/500/502/503/504 with urllib3 exponential backoff of factor 0.5 (sleeps
0s, 1s, 2s, 4s, 8s before retries 1-5), and a transfer issues at most 6 requests
in total (1 initial attempt plus 5 retries); any status outside the forcelist —
in particular any other 4xx — is delivered after a single request with no retry;
a transient 503 followed by 200 yields exactly one `succeeded` result for the
task, using 2 requests. -/
theorem claim_C4_amended (server : Nat → DD.Wire) (s : Nat)
    (hs : DD.make_session_retry.statusForcelist.contains s = false) :
    (DD.transfer DD.make_session_retry server).1 ≤ 6
    ∧ (server 0 = DD.Wire.status s →
        DD.transfer DD.make_session_retry server = (1, DD.XferResult.delivered s))
    ∧ (server 0 = DD.Wire.status 503 → (∀ n, 1 ≤ n → server n = DD.Wire.status 200) →
        DD.download_one DD.make_session_retry false (-1) DD.ProbeOutcome.exn server
          = { status := DD.TaskStatus.succeeded, headReqs := 0, getReqs := 2 })
    ∧ DD.retryable DD.make_session_retry DD.Wire.connFail = true
    ∧ (List.range 5).map (fun k => DD.get_backoff_time DD.make_session_retry (k + 1))
        = [0, 1, 2, 4, 8] := by
  refine ⟨?_, ?_, ?_, rfl, ?_⟩
  · exact runRetry_le DD.make_session_retry server 5 0
  · intro h0
    have hr : DD.retryable DD.make_session_retry (server 0) = false := by
      rw [h0]
      simpa [DD.retryable] using hs
    exact runRetry_stop DD.make_session_retry server 5 0 s h0 hr
  · intro h0 h1
    have h1' : server 1 = DD.Wire.status 200 := h1 1 (by omega)
    have ht : DD.transfer DD.make_session_retry server = (2, DD.XferResult.delivered 200) := by
      show DD.runRetry DD.make_session_retry server (4 + 1) 0 = _
      rw [runRetry_step_retry DD.make_session_retry server 4 0 (by rw [h0]; decide)]
      exact runRetry_stop DD.make_session_retry server 4 1 200 h1' (by rw [h1']; decide)
    have hss : DD.should_skip false (-1) DD.ProbeOutcome.exn = (false, 0) := by decide
    dsimp only [DD.download_one]
    rw [hss, ht]
    decide
  · have hr5 : List.range 5 = [0, 1, 2, 3, 4] := by decide
    rw [hr5]
    simp only [List.map]
    norm_num [DD.get_backoff_time, DD.make_session_retry]

/-- Witness for the amended C4 at the transient 503-then-200 server with 404 as
the non-retryable status. -/
theorem claim_C4_amended_witness :
    DD.download_one DD.make_session_retry false (-1) DD.ProbeOutcome.exn
        (fun n => if n = 0 then DD.Wire.status 503 else DD.Wire.status 200)
      = { status := DD.TaskStatus.succeeded, headReqs := 0, getReqs := 2 } :=
  (claim_C4_amended (fun n => if n = 0 then DD.Wire.status 503 else DD.Wire.status 200)
      404 (by decide)).2.2.1 (by decide)
    (fun n hn => by simp [Nat.pos_iff_ne_zero.mp hn])

/-- Claim C5: the skip decision. With the destination present at size `S` and the
probe reporting a Content-Length parsing to exactly `S`, the task is skipped
after one HEAD probe and issues zero transfer requests; if the probe raises, or
the Content-Length header is absent or non-numeric, the task is not skipped and
a transfer (at least one GET request) is attempted; if the destination does not
exist, no probe is issued and the task is not skipped. -/
theorem claim_C5 (cfg : DD.RetryCfg) (S : Int) (hS : 0 ≤ S) (cl : List Char)
    (server : Nat → DD.Wire) :
    (DD.pyInt cl = some S →
        DD.should_skip true S (DD.ProbeOutcome.response (some cl)) = (true, 1)
        ∧ DD.download_one cfg true S (DD.ProbeOutcome.response (some cl)) server
            = { status := DD.TaskStatus.skipped, headReqs := 1, getReqs := 0 })
    ∧ (DD.should_skip true S DD.ProbeOutcome.exn = (false, 1)
        ∧ 1 ≤ (DD.download_one cfg true S DD.ProbeOutcome.exn server).getReqs)
    ∧ (DD.should_skip true S (DD.ProbeOutcome.response none) = (false, 1)
        ∧ 1 ≤ (DD.download_one cfg true S (DD.ProbeOutcome.response none) server).getReqs)
    ∧ (DD.pyInt cl = none →
        DD.should_skip true S (DD.ProbeOutcome.response (some cl)) = (false, 1)
        ∧ 1 ≤ (DD.download_one cfg true S
              (DD.ProbeOutcome.response (some cl)) server).getReqs)
    ∧ (∀ probe, DD.should_skip false S probe = (false, 0)
        ∧ (DD.download_one cfg false S probe server).headReqs = 0
        ∧ 1 ≤ (DD.download_one cfg false S probe server).getReqs) := by
  have hS' : ¬ (S < 0) := by omega
  have hskA : DD.should_skip true S DD.ProbeOutcome.exn = (false, 1) := by
    unfold DD.should_skip
    rw [if_neg (by simp), if_neg hS']
  have hskB : DD.should_skip true S (DD.ProbeOutcome.response none) = (false, 1) := by
    unfold DD.should_skip
    rw [if_neg (by simp), if_neg hS']
  have hskC : ∀ cl0, DD.should_skip true S (DD.ProbeOutcome.response (some cl0))
      = (match DD.pyInt cl0 with
         | none => (false, 1)
         | some remote => (decide (remote = S), 1)) := by
    intro cl0
    unfold DD.should_skip
    rw [if_neg (by simp), if_neg hS']
  have hnotsk : ∀ probe, (DD.should_skip false S probe).1 = false := by
    intro probe
    rfl
  refine ⟨?_, ?_, ?_, ?_, ?_⟩
  · intro hcl
    have h1 : DD.should_skip true S (DD.ProbeOutcome.response (some cl)) = (true, 1) := by
      rw [hskC cl, hcl]
      simp
    refine ⟨h1, ?_⟩
    dsimp only [DD.download_one]
    rw [h1]
    rfl
  · have h1 : DD.should_skip true S DD.ProbeOutcome.exn = (false, 1) := hskA
    refine ⟨h1, ?_⟩
    have h2 := download_one_not_skipped cfg true S DD.ProbeOutcome.exn server (by rw [h1])
    rw [h2.1]
    exact transfer_pos cfg server
  · have h1 : DD.should_skip true S (DD.ProbeOutcome.response none) = (false, 1) := hskB
    refine ⟨h1, ?_⟩
    have h2 := download_one_not_skipped cfg true S (DD.ProbeOutcome.response none) server
      (by rw [h1])
    rw [h2.1]
    exact transfer_pos cfg server
  · intro hcl
    have h1 : DD.should_skip true S (DD.ProbeOutcome.response (some cl)) = (false, 1) := by
      rw [hskC cl, hcl]
    refine ⟨h1, ?_⟩
    have h2 := download_one_not_skipped cfg true S (DD.ProbeOutcome.response (some cl)) server
      (by rw [h1])
    rw [h2.1]
    exact transfer_pos cfg server
  · intro probe
    have h1 : DD.should_skip false S probe = (false, 0) := rfl
    have h2 := download_one_not_skipped cfg false S probe server (hnotsk probe)
    refine ⟨h1, ?_, ?_⟩
    · rw [h2.2, h1]
    · rw [h2.1]
      exact transfer_pos cfg server

/-- Witness for C5: an existing 7-byte file whose probe reports Content-Length 7
is skipped with one HEAD request and zero GET requests. -/
theorem claim_C5_witness :
    DD.download_one DD.make_session_retry true 7
        (DD.ProbeOutcome.response (some (toL "7"))) (fun _ => DD.Wire.status 200)
      = { status := DD.TaskStatus.skipped, headReqs := 1, getReqs := 0 } :=
  ((claim_C5 DD.make_session_retry 7 (by decide) (toL "7")
      (fun _ => DD.Wire.status 200)).1 (by decide)).2

end OLMoData

namespace OLMoData

/-- Nested manifest document: string scalars, sequences, and mappings with
string keys — the shapes the extractor walks. -/
inductive Yaml where
  | str : List Char → Yaml
  | list : List Yaml → Yaml
  | dict : List (List Char × Yaml) → Yaml

theorem dropWhile_length_le {α : Type} (p : α → Bool) (l : List α) :
    (l.dropWhile p).length ≤ l.length := by
  induction l with
  | nil => simp
  | cons c cs ih =>
    cases hpc : p c with
    | true =>
      rw [List.dropWhile_cons_of_pos hpc]
      exact le_trans ih (by simp)
    | false =>
      rw [List.dropWhile_cons_of_neg (by simp [hpc])]

namespace Py

/-- The scheme prefix matched by `https?://` at the head of `s`, if any,
with the remainder. -/
def schemeSplit (s : List Char) : Option (List Char × List Char) :=
  if startsw (toL "https://") s then some (toL "https://", s.drop 8)
  else if startsw (toL "http://") s then some (toL "http://", s.drop 7)
  else none

/-- Modelled from `re.findall(r"https?://\S+", s)`: scan left to right; where
`https?://` matches with at least one non-whitespace character after it, the
greedy, non-overlapping match is the scheme plus the maximal non-whitespace
run, and scanning resumes after the match. The fuel argument (initially the
input length, which every step strictly decreases) makes the scan structurally
recursive. -/
def findallGo : Nat → List Char → List (List Char)
  | 0, _ => []
  | _, [] => []
  | fuel + 1, c :: rest =>
    if startsw (toL "https://") (c :: rest) then
      match ((c :: rest).drop 8).takeWhile (fun x => !isWS x) with
      | [] => findallGo fuel rest
      | t :: ts =>
        (toL "https://" ++ t :: ts)
          :: findallGo fuel (((c :: rest).drop 8).dropWhile (fun x => !isWS x))
    else if startsw (toL "http://") (c :: rest) then
      match ((c :: rest).drop 7).takeWhile (fun x => !isWS x) with
      | [] => findallGo fuel rest
      | t :: ts =>
        (toL "http://" ++ t :: ts)
          :: findallGo fuel (((c :: rest).drop 7).dropWhile (fun x => !isWS x))
    else findallGo fuel rest

/-- `re.findall(r"https?://\S+", s)`. -/
def findall (s : List Char) : List (List Char) :=
  findallGo s.length s

end Py

namespace DD

mutual

/-- `download_data.py` lines 74-85 `extract_urls_from_any`: URL-shaped substrings
of every string scalar, in document order. -/
def extract_urls_from_any : Yaml → List (List Char)
  | .str s => Py.findall s
  | .list xs => extractFromList xs
  | .dict kvs => extractFromDict kvs

def extractFromList : List Yaml → List (List Char)
  | [] => []
  | x :: xs => extract_urls_from_any x ++ extractFromList xs

def extractFromDict : List (List Char × Yaml) → List (List Char)
  | [] => []
  | kv :: kvs => extract_urls_from_any kv.2 ++ extractFromDict kvs

end

/-- `download_data.py` line 35 `DATA_KEYS`. -/
def DATA_KEYS : List (List Char) :=
  [toL "data-path", toL "data_path", toL "data-paths", toL "data_paths"]

mutual

/-- `download_data.py` lines 56-71 `find_urls_from_data_keys`: walk the tree;
under a key in `DATA_KEYS` collect the subtree's URLs, and keep walking
everywhere. -/
def find_urls_from_data_keys : Yaml → List (List Char)
  | .str _ => []
  | .list xs => findFromList xs
  | .dict kvs => findFromDict kvs

def findFromList : List Yaml → List (List Char)
  | [] => []
  | x :: xs => find_urls_from_data_keys x ++ findFromList xs

def findFromDict : List (List Char × Yaml) → List (List Char)
  | [] => []
  | kv :: kvs =>
    (if DATA_KEYS.contains kv.1 then extract_urls_from_any kv.2 else [])
      ++ find_urls_from_data_keys kv.2 ++ findFromDict kvs

end

/-- `download_data.py` line 88-90 `fallback_find_all_urls`. -/
def fallback_find_all_urls (y : Yaml) : List (List Char) :=
  extract_urls_from_any y

/-- `u.startswith(("http://", "https://"))` (line 160). -/
def isHttp (u : List Char) : Bool :=
  startsw (toL "http://") u || startsw (toL "https://") u

/-- `download_data.py` lines 156-163: deduplicate preserving first-seen order,
keeping only http(s) URLs; a URL failing the scheme test is not added to `seen`. -/
def dedupHttp (seen : List (List Char)) : List (List Char) → List (List Char)
  | [] => []
  | u :: us =>
    if !(seen.contains u) && isHttp u then u :: dedupHttp (u :: seen) us
    else dedupHttp seen us

/-- `download_data.py` lines 151-163 `gather_urls`. -/
def gather_urls (y : Yaml) : List (List Char) :=
  let urls := find_urls_from_data_keys y
  let urls := if urls.isEmpty then fallback_find_all_urls y else urls
  dedupHttp [] urls

/-- `download_data.py` lines 166-178 `normalize_prefixes`: split each argument on
commas, strip whitespace, drop empties, strip leading slashes. -/
def normalize_prefixes (args : List (List Char)) : List (List Char) :=
  (args.map (fun raw =>
    (pySplitC ',' raw).filterMap (fun token =>
      let t := pyStrip token
      if t.isEmpty then none else some (lstripSlash t)))).flatten

/-- `main` lines 222-230: the kept (url, rel) pairs in manifest order, after
include-prefix filtering; the task's destination is dataDir/rel. -/
def keptPairs (y : Yaml) (trimArg : List Char) (includes : List (List Char)) :
    List (List Char × List Char) :=
  (gather_urls y).filterMap (fun url =>
    let rel := normalize_relative_path url trimArg
    if !includes.isEmpty && !(includes.any (fun p => startsw p rel)) then none
    else some (url, rel))

end DD

namespace MW

/-- `make_wget.py` lines 49-56 `normalize_prefixes`, the synthesizer's copy. -/
def normalize_prefixes (args : List (List Char)) : List (List Char) :=
  (args.map (fun raw =>
    (pySplitC ',' raw).filterMap (fun token =>
      let t := pyStrip token
      if t.isEmpty then none else some (lstripSlash t)))).flatten

/-- `make_wget.py` lines 77-82: pair building over the raw `data.paths` list —
no URL extraction, no deduplication. -/
def pairs (urls : List (List Char)) (trimArg : List Char) (includes : List (List Char)) :
    List (List Char × List Char) :=
  urls.filterMap (fun url =>
    let rel := normalize_relative_path url trimArg
    if !includes.isEmpty && !(includes.any (fun p => startsw p rel)) then none
    else some (url, rel))

/-- Mapping lookup `y[k]`, first binding wins. -/
def yget (y : Yaml) (k : List Char) : Option Yaml :=
  match y with
  | .dict kvs => (kvs.find? (fun kv => kv.1 == k)).map (fun kv => kv.2)
  | _ => none

/-- The string scalars of a sequence node (the shape `data.paths` takes in every
manifest this tool accepts). -/
def asStrList : Yaml → Option (List (List Char))
  | .list xs => xs.mapM (fun x => match x with | .str s => some s | _ => none)
  | _ => none

/-- `make_wget.py` `main` lines 67-86: require `data.paths`, build the filtered
pairs, exit 1 when the manifest lacks `data.paths`, exit 2 when nothing matches. -/
def mwMain (y : Yaml) (trimArg : List Char) (includeArgs : List (List Char)) :
    Except Nat (List (List Char × List Char)) :=
  match (yget y (toL "data")).bind (fun d => yget d (toL "paths")) with
  | none => .error 1
  | some pnode =>
    match asStrList pnode with
    | none => .error 1
    | some urls =>
      let ps := pairs urls trimArg (normalize_prefixes includeArgs)
      if ps.isEmpty then .error 2 else .ok ps

end MW

/-- A manifest of exactly the shape `make_wget.py` requires:
`{data: {paths: [...]}}` with string entries. -/
def exampleManifest (ss : List (List Char)) : Yaml :=
  Yaml.dict [(toL "data", Yaml.dict [(toL "paths", Yaml.list (ss.map Yaml.str))])]

end OLMoData

namespace OLMoData

theorem findallGo_nil (fuel : Nat) : Py.findallGo fuel [] = [] := by
  cases fuel <;> rfl

theorem startsw_https_of_http (r : List Char) :
    startsw (toL "https://") (toL "http://" ++ r) = false := by
  have h1 : toL "https://" = 'h' :: 't' :: 't' :: 'p' :: 's' :: ':' :: '/' :: '/' :: [] := by
    decide
  have h2 : toL "http://" = 'h' :: 't' :: 't' :: 'p' :: ':' :: '/' :: '/' :: [] := by decide
  rw [h1, h2]
  simp [startsw]

theorem findallGo_http (fuel : Nat) (r0 : Char) (rs : List Char)
    (hws : ∀ c ∈ r0 :: rs, isWS c = false) :
    Py.findallGo (fuel + 1) (toL "http://" ++ r0 :: rs) = [toL "http://" ++ r0 :: rs] := by
  have h2 : toL "http://" = 'h' :: 't' :: 't' :: 'p' :: ':' :: '/' :: '/' :: [] := by decide
  have hf := startsw_https_of_http (r0 :: rs)
  rw [h2] at hf ⊢
  simp only [List.cons_append, List.nil_append] at hf ⊢
  have hp : startsw ['h', 't', 't', 'p', ':', '/', '/']
      ('h' :: 't' :: 't' :: 'p' :: ':' :: '/' :: '/' :: r0 :: rs) = true := by
    simp [startsw]
  have hdrop : ('h' :: 't' :: 't' :: 'p' :: ':' :: '/' :: '/' :: r0 :: rs).drop 7 = r0 :: rs :=
    rfl
  simp only [Py.findallGo]
  rw [if_neg (by simp [hf]), if_pos (by rw [h2]; exact hp)]
  have htw : (('h' :: 't' :: 't' :: 'p' :: ':' :: '/' :: '/' :: r0 :: rs).drop 7).takeWhile
      (fun x => !isWS x) = r0 :: rs := by
    rw [hdrop]
    exact takeWhile_eq_self_of_all _ _ (fun c hc => by simp [hws c hc])
  have hdw : (('h' :: 't' :: 't' :: 'p' :: ':' :: '/' :: '/' :: r0 :: rs).drop 7).dropWhile
      (fun x => !isWS x) = [] := by
    rw [hdrop]
    exact dropWhile_eq_nil_of_all _ _ (fun c hc => by simp [hws c hc])
  rw [htw, hdw, findallGo_nil]
  show [toL "http://" ++ r0 :: rs] = ['h' :: 't' :: 't' :: 'p' :: ':' :: '/' :: '/' :: r0 :: rs]
  rw [h2]
  simp

theorem findallGo_https (fuel : Nat) (r0 : Char) (rs : List Char)
    (hws : ∀ c ∈ r0 :: rs, isWS c = false) :
    Py.findallGo (fuel + 1) (toL "https://" ++ r0 :: rs) = [toL "https://" ++ r0 :: rs] := by
  have h1 : toL "https://" = 'h' :: 't' :: 't' :: 'p' :: 's' :: ':' :: '/' :: '/' :: [] := by
    decide
  have hp : startsw (toL "https://") (toL "https://" ++ r0 :: rs) = true :=
    startsw_append_self _ _
  rw [h1] at hp ⊢
  simp only [List.cons_append, List.nil_append] at hp ⊢
  have hdrop : ('h' :: 't' :: 't' :: 'p' :: 's' :: ':' :: '/' :: '/' :: r0 :: rs).drop 8
      = r0 :: rs := rfl
  simp only [Py.findallGo]
  rw [if_pos (by rw [h1]; exact hp)]
  have htw : (('h' :: 't' :: 't' :: 'p' :: 's' :: ':' :: '/' :: '/' :: r0 :: rs).drop 8).takeWhile
      (fun x => !isWS x) = r0 :: rs := by
    rw [hdrop]
    exact takeWhile_eq_self_of_all _ _ (fun c hc => by simp [hws c hc])
  have hdw : (('h' :: 't' :: 't' :: 'p' :: 's' :: ':' :: '/' :: '/' :: r0 :: rs).drop 8).dropWhile
      (fun x => !isWS x) = [] := by
    rw [hdrop]
    exact dropWhile_eq_nil_of_all _ _ (fun c hc => by simp [hws c hc])
  rw [htw, hdw, findallGo_nil]
  show [toL "https://" ++ r0 :: rs]
      = ['h' :: 't' :: 't' :: 'p' :: 's' :: ':' :: '/' :: '/' :: r0 :: rs]
  rw [h1]
  simp

theorem findall_token (s : List Char)
    (hws : ∀ c ∈ s, isWS c = false)
    (h : (startsw (toL "http://") s = true ∧ 7 < s.length)
       ∨ (startsw (toL "https://") s = true ∧ 8 < s.length)) :
    Py.findall s = [s] := by
  rcases h with ⟨hsw, hlen⟩ | ⟨hsw, hlen⟩
  · have hseq : s = toL "http://" ++ s.drop 7 := by
      have h7 : (toL "http://").length = 7 := by decide
      have he := eq_append_of_startsw hsw
      rw [h7] at he
      exact he
    obtain ⟨r0, rs, hr⟩ : ∃ r0 rs, s.drop 7 = r0 :: rs := by
      cases hd : s.drop 7 with
      | nil =>
        exfalso
        have hl := List.length_drop 7 s
        rw [hd] at hl
        simp at hl
        omega
      | cons a as => exact ⟨a, as, rfl⟩
    have hws' : ∀ c ∈ r0 :: rs, isWS c = false := by
      intro c hc
      apply hws
      rw [hseq, hr]
      exact List.mem_append_right _ hc
    have hlen2 : (toL "http://" ++ r0 :: rs).length = (7 + rs.length) + 1 := by
      have h7 : (toL "http://").length = 7 := by decide
      simp [List.length_append, h7]
      omega
    conv_lhs => rw [hseq, hr]
    unfold Py.findall
    rw [hlen2, findallGo_http (7 + rs.length) r0 rs hws', ← hr, ← hseq]
  · have hseq : s = toL "https://" ++ s.drop 8 := by
      have h8 : (toL "https://").length = 8 := by decide
      have he := eq_append_of_startsw hsw
      rw [h8] at he
      exact he
    obtain ⟨r0, rs, hr⟩ : ∃ r0 rs, s.drop 8 = r0 :: rs := by
      cases hd : s.drop 8 with
      | nil =>
        exfalso
        have hl := List.length_drop 8 s
        rw [hd] at hl
        simp at hl
        omega
      | cons a as => exact ⟨a, as, rfl⟩
    have hws' : ∀ c ∈ r0 :: rs, isWS c = false := by
      intro c hc
      apply hws
      rw [hseq, hr]
      exact List.mem_append_right _ hc
    have hlen2 : (toL "https://" ++ r0 :: rs).length = (8 + rs.length) + 1 := by
      have h8 : (toL "https://").length = 8 := by decide
      simp [List.length_append, h8]
      omega
    conv_lhs => rw [hseq, hr]
    unfold Py.findall
    rw [hlen2, findallGo_https (8 + rs.length) r0 rs hws', ← hr, ← hseq]

end OLMoData

namespace OLMoData

theorem extractFromList_strs (ss : List (List Char))
    (h : ∀ s ∈ ss, Py.findall s = [s]) :
    DD.extractFromList (ss.map Yaml.str) = ss := by
  induction ss with
  | nil => rfl
  | cons s ss ih =>
    simp only [List.map_cons, DD.extractFromList, DD.extract_urls_from_any]
    rw [h s (by simp), ih (fun x hx => h x (by simp [hx]))]
    rfl

theorem findFromList_strs (ss : List (List Char)) :
    DD.findFromList (ss.map Yaml.str) = [] := by
  induction ss with
  | nil => rfl
  | cons s ss ih =>
    simp only [List.map_cons, DD.findFromList, DD.find_urls_from_data_keys]
    rw [ih]
    rfl

theorem find_example_nil (ss : List (List Char)) :
    DD.find_urls_from_data_keys (exampleManifest ss) = [] := by
  have h1 : toL "data" ∉ DD.DATA_KEYS := by decide
  have h2 : toL "paths" ∉ DD.DATA_KEYS := by decide
  simp [exampleManifest, DD.find_urls_from_data_keys, DD.findFromDict, h1, h2,
    findFromList_strs ss]

theorem extract_example (ss : List (List Char))
    (h : ∀ s ∈ ss, Py.findall s = [s]) :
    DD.extract_urls_from_any (exampleManifest ss) = ss := by
  simp [exampleManifest, DD.extract_urls_from_any, DD.extractFromDict,
    extractFromList_strs ss h]

theorem dedupHttp_id (ss : List (List Char)) :
    ∀ seen, ss.Nodup → (∀ s ∈ ss, DD.isHttp s = true) →
    (∀ s ∈ ss, seen.contains s = false) →
    DD.dedupHttp seen ss = ss := by
  induction ss with
  | nil =>
    intro seen _ _ _
    rfl
  | cons u us ih =>
    intro seen hnd hh hs
    have hu : seen.contains u = false := hs u (by simp)
    have hhu : DD.isHttp u = true := hh u (by simp)
    obtain ⟨hnotin, hnd'⟩ := List.nodup_cons.mp hnd
    simp only [DD.dedupHttp, hu, hhu, Bool.not_false, Bool.true_and, if_true]
    congr 1
    apply ih (u :: seen) hnd' (fun s hsm => hh s (by simp [hsm]))
    intro s hsm
    have hne : ¬ (s = u) := fun he => hnotin (he ▸ hsm)
    have hsx : s ∉ seen := by
      have h0 := hs s (by simp [hsm])
      simp at h0
      exact h0
    simp [List.contains_cons, hne, hsx]

/-- Claim C6 counterexample: from the duplicate manifest
`{data: {paths: [u, u]}}` the Download Engine builds one task (it deduplicates)
while the Script Synthesizer renders two fetch blocks, so the two (url, rel)
lists differ. -/
theorem claim_C6_counterexample :
    DD.keptPairs (exampleManifest [toL "https://h/p/a/x", toL "https://h/p/a/x"])
        (toL "/p/") []
      = [(toL "https://h/p/a/x", toL "a/x")]
    ∧ MW.mwMain (exampleManifest [toL "https://h/p/a/x", toL "https://h/p/a/x"])
        (toL "/p/") []
      = Except.ok [(toL "https://h/p/a/x", toL "a/x"), (toL "https://h/p/a/x", toL "a/x")]
    ∧ decide (MW.pairs [toL "https://h/p/a/x", toL "https://h/p/a/x"] (toL "/p/") []
        = DD.keptPairs (exampleManifest [toL "https://h/p/a/x", toL "https://h/p/a/x"])
            (toL "/p/") []) = false := by
  refine ⟨by decide, rfl, by decide⟩

/-- Claim C6 (amended): for a manifest of exactly the shape `{data: {paths: [...]}}`
whose entries are pairwise distinct single-token http(s) URLs (scheme prefix, at
least one character after it, no whitespace), the Download Engine's gathered URL
list is exactly the manifest list and its task pairs coincide with the Script
Synthesizer's rendered pairs — same URLs, same order, same relative paths, under
the same trim/include configuration. Without distinctness the engine
deduplicates while the synthesizer does not. -/
theorem claim_C6_amended (ss : List (List Char)) (trimArg : List Char)
    (includeArgs : List (List Char))
    (hnd : ss.Nodup)
    (hs : ∀ s ∈ ss, (∀ c ∈ s, isWS c = false) ∧
        ((startsw (toL "http://") s = true ∧ 7 < s.length)
          ∨ (startsw (toL "https://") s = true ∧ 8 < s.length))) :
    DD.gather_urls (exampleManifest ss) = ss
    ∧ DD.keptPairs (exampleManifest ss) trimArg (DD.normalize_prefixes includeArgs)
        = MW.pairs ss trimArg (MW.normalize_prefixes includeArgs) := by
  have hfind : ∀ s ∈ ss, Py.findall s = [s] :=
    fun s hsm => findall_token s (hs s hsm).1 (hs s hsm).2
  have hhttp : ∀ s ∈ ss, DD.isHttp s = true := by
    intro s hsm
    rcases (hs s hsm).2 with ⟨hsw, _⟩ | ⟨hsw, _⟩ <;> simp [DD.isHttp, hsw]
  have hg : DD.gather_urls (exampleManifest ss) = ss := by
    unfold DD.gather_urls
    rw [find_example_nil ss]
    simp only [List.isEmpty_nil, if_true]
    rw [DD.fallback_find_all_urls, extract_example ss hfind]
    exact dedupHttp_id ss [] hnd hhttp (fun s _ => rfl)
  refine ⟨hg, ?_⟩
  unfold DD.keptPairs
  rw [hg]
  rfl

/-- Witness for the amended C6 at the spec's two-URL example manifest. -/
theorem claim_C6_amended_witness :
    DD.gather_urls (exampleManifest [toL "https://h/p/a/x", toL "https://h/p/a/y"])
        = [toL "https://h/p/a/x", toL "https://h/p/a/y"]
    ∧ DD.keptPairs (exampleManifest [toL "https://h/p/a/x", toL "https://h/p/a/y"])
          (toL "/p/") (DD.normalize_prefixes [])
        = MW.pairs [toL "https://h/p/a/x", toL "https://h/p/a/y"] (toL "/p/")
            (MW.normalize_prefixes []) :=
  claim_C6_amended [toL "https://h/p/a/x", toL "https://h/p/a/y"] (toL "/p/") []
    (by decide) (by decide)

end OLMoData

namespace OLMoData

namespace Py

/-- A single-quote character. -/
def sq : Char := Char.ofNat 39

/-- A backslash character. -/
def bsl : Char := Char.ofNat 92

/-- Lexing mode of the posix `shlex` tokenizer: outside quotes, inside single
quotes, inside double quotes. -/
inductive SMode where
  | base | inSingle | inDouble

/-- Modelled from `shlex.split(line, posix=True)` as `shlex.split` configures it
(`whitespace_split=True`, comments disabled): whitespace separates tokens;
single quotes protect everything; double quotes protect everything except that a
backslash escapes `"` and backslash (and is kept verbatim before other
characters); a backslash outside quotes escapes the next character; an
unterminated quote or trailing escape raises ValueError (`none`). `cur` holds
the current token reversed; `started` records whether a token (possibly empty,
from quotes) is in progress. -/
def shlexGo : SMode → List Char → List Char → Bool → Option (List (List Char))
  | .base, [], cur, started => some (if started then [cur.reverse] else [])
  | .base, c :: rest, cur, started =>
    if isWS c then
      if started then (shlexGo .base rest [] false).map (fun ts => cur.reverse :: ts)
      else shlexGo .base rest [] false
    else if c == sq then shlexGo .inSingle rest cur true
    else if c == '"' then shlexGo .inDouble rest cur true
    else if c == bsl then
      match rest with
      | [] => none
      | d :: rest2 => shlexGo .base rest2 (d :: cur) true
    else shlexGo .base rest (c :: cur) true
  | .inSingle, [], _, _ => none
  | .inSingle, c :: rest, cur, _ =>
    if c == sq then shlexGo .base rest cur true
    else shlexGo .inSingle rest (c :: cur) true
  | .inDouble, [], _, _ => none
  | .inDouble, c :: rest, cur, _ =>
    if c == '"' then shlexGo .base rest cur true
    else if c == bsl then
      match rest with
      | [] => none
      | d :: rest2 =>
        if d == '"' || d == bsl then shlexGo .inDouble rest2 (d :: cur) true
        else shlexGo .inDouble rest2 (d :: bsl :: cur) true
    else shlexGo .inDouble rest (c :: cur) true

/-- `shlex.split(line, posix=True)` (check_targets.py line 81). -/
def shlexSplit (line : List Char) : Option (List (List Char)) :=
  shlexGo .base line [] false

end Py

/-- A character that survives shell rendering and re-tokenization verbatim:
not whitespace and not a quote or backslash. -/
def shellPlain (c : Char) : Bool :=
  !isWS c && !(c == '"') && !(c == Py.sq) && !(c == Py.bsl)

namespace MW

/-- Characters `shlex.quote` leaves unquoted: word characters and the symbols
at-sign, percent, plus, equals, colon, comma, dot, slash, hyphen. -/
def quoteSafe (c : Char) : Bool :=
  c.isAlphanum || c == '_' || c == '@' || c == '%' || c == '+' || c == '='
    || c == ':' || c == ',' || c == '.' || c == '/' || c == '-'

/-- Modelled from `shlex.quote`: empty becomes two single quotes; an all-safe
string is unchanged; otherwise wrap in single quotes, each inner single quote
rendered as quote, double-quoted quote, quote. -/
def shlexQuote (s : List Char) : List Char :=
  if s.isEmpty then [Py.sq, Py.sq]
  else if s.all quoteSafe then s
  else Py.sq :: ((s.map (fun c =>
      if c == Py.sq then [Py.sq, '"', Py.sq, '"', Py.sq] else [c])).flatten ++ [Py.sq])

/-- make_wget.py HEADER (lines 22-33): one entry per line of the template, with
the quoted data dir spliced in. -/
def headerLines (ddq : List Char) : List (List Char) :=
  [toL "#!/usr/bin/env bash",
   toL "set -Eeuo pipefail",
   [],
   toL "if ! command -v wget >/dev/null 2>&1; then",
   toL "  echo \"Error: wget is not installed.\" >&2",
   toL "  exit 1",
   toL "fi",
   [],
   toL "DATA_DIR=" ++ ddq,
   toL "echo \"Saving to: $DATA_DIR\"",
   toL "mkdir -p \"$DATA_DIR\""]

/-- make_wget.py LINE (lines 35-39): the lines of one fetch block; the template
starts with a blank line. -/
def blockLines (url rel : List Char) : List (List Char) :=
  [[],
   toL "# " ++ url,
   toL "mkdir -p \"$(dirname \"$DATA_DIR/" ++ rel ++ toL "\")\"",
   toL "wget -c --retry-connrefused -t 5 --timeout=60 \"" ++ url
     ++ toL "\" -O \"$DATA_DIR/" ++ rel ++ toL "\""]

/-- Join template lines, each terminated by a newline, as the HEADER and LINE
strings are. -/
def joinNl (lines : List (List Char)) : List Char :=
  (lines.map (fun l => l ++ ['\n'])).flatten

/-- make_wget.py lines 88-90: the full rendered script text. -/
def renderScript (ddq : List Char) (ps : List (List Char × List Char)) : List Char :=
  joinNl (headerLines ddq) ++ (ps.map (fun p => joinNl (blockLines p.1 p.2))).flatten

end MW

namespace CT

/-- check_targets.py lines 85-87: every token following a `-O` token. -/
def collectO : List (List Char) → List (List Char)
  | a :: b :: rest => (if a = toL "-O" then [b] else []) ++ collectO (b :: rest)
  | _ => []

/-- check_targets.py lines 74-87, one line: strip it, skip blank and comment
lines, tokenize shell-like (skipping lines shlex rejects), collect `-O` targets. -/
def lineTargets (raw : List Char) : List (List Char) :=
  let line := pyStrip raw
  if line.isEmpty then []
  else if line.head? = some '#' then []
  else
    match Py.shlexSplit line with
    | none => []
    | some toks => collectO toks

/-- check_targets.py lines 67-88 `extract_targets_from_sh`: `-O` targets of every
line, in script order. -/
def extract_targets_from_sh (script : List Char) : List (List Char) :=
  ((pySplitC '\n' script).map lineTargets).flatten

/-- Python `str(Path(a, b))`: an absolute second component wins; otherwise join
with a single slash. -/
def pyPathJoin (a b : List Char) : List Char :=
  if b.isEmpty then a
  else if b.head? = some '/' then b
  else if a.getLast? = some '/' then a ++ b
  else a ++ '/' :: b

/-- Lexical normalization standing in for `Path.resolve()` on an absolute path
(symlink resolution is not modelled; no claim exercises this branch):
collapse `.`, `..` and empty segments. -/
def lexResolve (p : List Char) : List Char :=
  '/' :: List.intercalate ['/'] (resolveSegs (pySplitC '/' p))

/-- check_targets.py lines 91-120 `normalize_to_relative`: `$DATA_DIR/`- and
interpolated-brace-form tokens yield their tail; an absolute token is made
relative to the data dir when possible, else degrades to its basename; anything
else is a plain relative path joined under the data dir. -/
def normalize_to_relative (tok : List Char) (dd : List Char) :
    List Char × Option (List Char) :=
  if startsw (toL "$DATA_DIR/") tok = true then
    (tok.drop 10, some (pyPathJoin dd (tok.drop 10)))
  else if startsw (toL "$\x7bDATA_DIR\x7d/") tok = true then
    (tok.drop 12, some (pyPathJoin dd (tok.drop 12)))
  else if tok.head? = some '/' then
    let rtok := lexResolve tok
    let rdd := lexResolve dd
    if rtok = rdd then (toL ".", some rtok)
    else if startsw (rdd ++ ['/']) rtok = true then (rtok.drop (rdd.length + 1), some rtok)
    else ((pySplitC '/' tok).getLastD [], some rtok)
  else (tok, some (pyPathJoin dd tok))

/-- check_targets.py lines 157-158: the `--filter-prefix` test — a single
literal prefix, no comma expansion, no slash stripping; an absent or empty
prefix keeps everything. -/
def keepTarget (filterPre? : Option (List Char)) (rel : List Char) : Bool :=
  match filterPre? with
  | none => true
  | some fp => if fp.isEmpty then true else startsw fp rel

/-- check_targets.py lines 165-171: deduplicate by relative path, first-seen
order preserved. -/
def dedupByRel (seen : List (List Char)) :
    List (List Char × Option (List Char)) → List (List Char × Option (List Char))
  | [] => []
  | ra :: rest =>
    if seen.contains ra.1 then dedupByRel seen rest
    else ra :: dedupByRel (ra.1 :: seen) rest

/-- What the verifier reports (lines 183-203). `reportsNoExisting` models the
explicit `No existing targets found.` message printed instead of indexing
`existing[-1]` when nothing exists. -/
structure Report where
  totalUnique : Nat
  existing : List (List Char × List Char)
  missing : List (List Char × List Char)
  lastExisting : Option (List Char × List Char)
  reportsNoExisting : Bool
  deriving DecidableEq

/-- check_targets.py `main` lines 148-203, after the data dir is resolved:
extract targets (exit 3 if none), normalize and filter (exit 4 if none
remains), dedupe by relative path, check existence in script order, and report;
the last-existing target is `existing[-1]` in script order, consulted only when
`existing` is nonempty. -/
def check (script : List Char) (dd : List Char) (filterPre? : Option (List Char))
    (isFile : List Char → Bool) : Except Nat Report :=
  let toks := extract_targets_from_sh script
  if toks.isEmpty then .error 3
  else
    let relAbs := (toks.map (fun tok => normalize_to_relative tok dd)).filter
      (fun ra => keepTarget filterPre? ra.1)
    if relAbs.isEmpty then .error 4
    else
      let uniq := dedupByRel [] relAbs
      let withAbs := uniq.map (fun ra =>
        (ra.1, match ra.2 with | some ab => ab | none => pyPathJoin dd ra.1))
      let ex := withAbs.filter (fun p => isFile p.2)
      let mi := withAbs.filter (fun p => !(isFile p.2))
      .ok { totalUnique := uniq.length, existing := ex, missing := mi,
            lastExisting := ex.getLast?, reportsNoExisting := ex.isEmpty }

end CT

end OLMoData

namespace OLMoData

theorem head?_append_left {α : Type} (a b : List α) (c : α) (h : a.head? = some c) :
    (a ++ b).head? = some c := by
  cases a with
  | nil => simp at h
  | cons x xs => simpa using h

theorem isEmpty_false_of_head? {α : Type} (a : List α) (c : α) (h : a.head? = some c) :
    a.isEmpty = false := by
  cases a with
  | nil => simp at h
  | cons x xs => rfl

theorem dropWhile_id_of_all {α : Type} (p : α → Bool) (s : List α)
    (h : ∀ c ∈ s, p c = false) : s.dropWhile p = s :=
  dropWhile_head_id p s (fun c hc => h c (by cases s with
    | nil => simp at hc
    | cons x xs => simp at hc; simp [hc]))

theorem pyStrip_nonws (s : List Char) (h : ∀ c ∈ s, isWS c = false) : pyStrip s = s := by
  unfold pyStrip
  rw [dropWhile_id_of_all isWS s h,
    dropWhile_id_of_all isWS s.reverse (fun c hc => h c (List.mem_reverse.mp hc)),
    List.reverse_reverse]

theorem dropWhile_append_last {α : Type} (p : α → Bool) (a : List α) (x : α)
    (hx : p x = false) : (a ++ [x]).dropWhile p = a.dropWhile p ++ [x] := by
  cases h : a.dropWhile p with
  | nil =>
    rw [dropWhile_append_all p a [x] (all_of_dropWhile_nil p a h)]
    simp [List.dropWhile_cons_of_neg (show ¬ p x = true by simp [hx])]
  | cons y ys =>
    rw [dropWhile_append_of_ne p a [x] (by rw [h]; simp), h]

theorem pyStrip_id (s : List Char)
    (h1 : ∀ c, s.head? = some c → isWS c = false)
    (h2 : ∀ c, s.getLast? = some c → isWS c = false) : pyStrip s = s := by
  unfold pyStrip
  rw [dropWhile_head_id _ _ h1,
    dropWhile_head_id _ _ (fun c hc => h2 c (by rwa [← List.head?_reverse])),
    List.reverse_reverse]

theorem shlexGo_end (cur : List Char) :
    Py.shlexGo Py.SMode.base [] cur true = some [cur.reverse] := rfl

theorem shlexGo_plain (s : List Char) (h : ∀ c ∈ s, shellPlain c = true) :
    ∀ rest cur b, Py.shlexGo Py.SMode.base (s ++ rest) cur b
      = Py.shlexGo Py.SMode.base rest (s.reverse ++ cur) (b || !s.isEmpty) := by
  induction s with
  | nil => intro rest cur b; simp
  | cons c cs ih =>
    intro rest cur b
    have hc := h c (by simp)
    simp only [shellPlain, Bool.and_eq_true, Bool.not_eq_true'] at hc
    obtain ⟨⟨⟨hw, hq⟩, hsq⟩, hb⟩ := hc
    simp only [List.cons_append]
    conv_lhs => rw [Py.shlexGo.eq_def]
    simp only [hw, Bool.false_eq_true, if_false, hq, hsq, hb]
    rw [ih (fun x hx => h x (by simp [hx])) rest (c :: cur) true]
    simp [List.append_assoc]

theorem shlexGo_space (rest cur : List Char) :
    Py.shlexGo Py.SMode.base (' ' :: rest) cur true
      = (Py.shlexGo Py.SMode.base rest [] false).map (fun ts => cur.reverse :: ts) := by
  have h1 : isWS ' ' = true := by decide
  rw [Py.shlexGo.eq_def]
  simp [h1]

theorem shlexGo_dq_enter (rest cur : List Char) (b : Bool) :
    Py.shlexGo Py.SMode.base ('"' :: rest) cur b
      = Py.shlexGo Py.SMode.inDouble rest cur true := by
  have h1 : isWS '"' = false := by decide
  have h2 : ('"' == Py.sq) = false := by decide
  have h3 : ('"' == '"') = true := by decide
  rw [Py.shlexGo.eq_def]
  simp [h1, h2, h3]

theorem shlexGo_dq_scan (s : List Char)
    (h : ∀ c ∈ s, (c == '"') = false ∧ (c == Py.bsl) = false) :
    ∀ rest cur, Py.shlexGo Py.SMode.inDouble (s ++ '"' :: rest) cur true
      = Py.shlexGo Py.SMode.base rest (s.reverse ++ cur) true := by
  induction s with
  | nil =>
    intro rest cur
    have h3 : ('"' == '"') = true := by decide
    rw [List.nil_append, Py.shlexGo.eq_def]
    simp [h3]
  | cons c cs ih =>
    intro rest cur
    obtain ⟨hq, hb⟩ := h c (by simp)
    simp only [List.cons_append]
    conv_lhs => rw [Py.shlexGo.eq_def]
    simp only [hq, Bool.false_eq_true, if_false, hb]
    rw [ih (fun x hx => h x (by simp [hx])) rest (c :: cur)]
    simp [List.append_assoc]

theorem shlexGo_tok_cons (tok rest : List Char) (toks : List (List Char))
    (h : ∀ c ∈ tok, shellPlain c = true) (hne : tok.isEmpty = false)
    (hrest : Py.shlexGo Py.SMode.base rest [] false = some toks) :
    Py.shlexGo Py.SMode.base (tok ++ ' ' :: rest) [] false = some (tok :: toks) := by
  rw [shlexGo_plain tok h (' ' :: rest) [] false]
  simp only [hne, Bool.not_false, Bool.or_true]
  rw [List.append_nil, shlexGo_space, hrest]
  simp

theorem shlexGo_tok_end (tok : List Char)
    (h : ∀ c ∈ tok, shellPlain c = true) (hne : tok.isEmpty = false) :
    Py.shlexGo Py.SMode.base tok [] false = some [tok] := by
  have := shlexGo_plain tok h [] [] false
  rw [List.append_nil] at this
  rw [this]
  simp only [hne, Bool.not_false, Bool.or_true]
  rw [List.append_nil, shlexGo_end, List.reverse_reverse]

end OLMoData

namespace OLMoData

theorem quoteSafe_shellPlain (c : Char) (h : MW.quoteSafe c = true) : shellPlain c = true := by
  have hws : isWS c = false := by
    cases hi : isWS c
    · rfl
    · exfalso
      simp only [isWS, Bool.or_eq_true, beq_iff_eq] at hi
      rcases hi with ((((rfl | rfl) | rfl) | rfl) | rfl) | rfl <;>
        exact absurd h (by decide)
  have h1 : (c == '"') = false := by
    cases he : c == '"'
    · rfl
    · rw [beq_iff_eq] at he
      subst he
      exact absurd h (by decide)
  have h2 : (c == Py.sq) = false := by
    cases he : c == Py.sq
    · rfl
    · rw [beq_iff_eq] at he
      subst he
      exact absurd h (by decide)
  have h3 : (c == Py.bsl) = false := by
    cases he : c == Py.bsl
    · rfl
    · rw [beq_iff_eq] at he
      subst he
      exact absurd h (by decide)
  simp [shellPlain, hws, h1, h2, h3]

theorem shellPlain_ne_nl (c : Char) (h : shellPlain c = true) : ¬ c = '\n' := by
  intro hc
  subst hc
  exact absurd h (by decide)

theorem collectO_nil : CT.collectO [] = [] := rfl

theorem collectO_single (a : List Char) : CT.collectO [a] = [] := rfl

theorem collectO_cons_ne (a b : List Char) (rest : List (List Char)) (h : ¬ a = toL "-O") :
    CT.collectO (a :: b :: rest) = CT.collectO (b :: rest) := by
  simp only [CT.collectO, h, if_false, List.nil_append]

theorem collectO_cons_O (b : List Char) (rest : List (List Char)) :
    CT.collectO (toL "-O" :: b :: rest) = b :: CT.collectO (b :: rest) := by
  simp [CT.collectO]

theorem lineTargets_blank : CT.lineTargets [] = [] := rfl

theorem lineTargets_comment (xs : List Char) : CT.lineTargets ('#' :: xs) = [] := by
  have h1 : ('#' :: xs).dropWhile isWS = '#' :: xs :=
    List.dropWhile_cons_of_neg (by decide)
  have h2 : pyStrip ('#' :: xs) = '#' :: ((xs.reverse.dropWhile isWS).reverse) := by
    unfold pyStrip
    rw [h1, show ('#' :: xs).reverse = xs.reverse ++ ['#'] from by simp,
      dropWhile_append_last isWS xs.reverse '#' (by decide)]
    simp
  unfold CT.lineTargets
  rw [h2]
  simp

theorem lineTargets_ddline (dd : List Char) (hdd : ∀ c ∈ dd, MW.quoteSafe c = true) :
    CT.lineTargets (toL "DATA_DIR=" ++ dd) = [] := by
  have hplain : ∀ c ∈ toL "DATA_DIR=" ++ dd, shellPlain c = true := by
    intro c hc
    rcases List.mem_append.mp hc with h | h
    · exact (by decide : ∀ c ∈ toL "DATA_DIR=", shellPlain c = true) c h
    · exact quoteSafe_shellPlain c (hdd c h)
  have hws : ∀ c ∈ toL "DATA_DIR=" ++ dd, isWS c = false := by
    intro c hc
    have := hplain c hc
    simp only [shellPlain, Bool.and_eq_true, Bool.not_eq_true'] at this
    exact this.1.1.1
  have hhead : (toL "DATA_DIR=" ++ dd).head? = some 'D' :=
    head?_append_left _ dd 'D' (by decide)
  have htok : Py.shlexSplit (toL "DATA_DIR=" ++ dd) = some [toL "DATA_DIR=" ++ dd] :=
    shlexGo_tok_end _ hplain (isEmpty_false_of_head? _ 'D' hhead)
  unfold CT.lineTargets
  rw [pyStrip_nonws _ hws]
  simp only [isEmpty_false_of_head? _ 'D' hhead, Bool.false_eq_true, if_false, hhead]
  rw [if_neg (by simp), htok]
  exact collectO_single _

end OLMoData

namespace OLMoData

theorem lineTargets_wget (url rel : List Char)
    (hu : ∀ c ∈ url, shellPlain c = true) (hur : ¬ url = toL "-O")
    (hr : ∀ c ∈ rel, shellPlain c = true) :
    CT.lineTargets (toL "wget -c --retry-connrefused -t 5 --timeout=60 \"" ++ url
        ++ toL "\" -O \"$DATA_DIR/" ++ rel ++ toL "\"")
      = [toL "$DATA_DIR/" ++ rel] := by
  have hQ : toL "\"" = ['"'] := by decide
  have hnq1 : ∀ c ∈ toL "$DATA_DIR/" ++ rel, (c == '"') = false ∧ (c == Py.bsl) = false := by
    intro c hc
    rcases List.mem_append.mp hc with h | h
    · exact (by decide : ∀ c ∈ toL "$DATA_DIR/", (c == '"') = false ∧ (c == Py.bsl) = false) c h
    · have := hr c h
      simp only [shellPlain, Bool.and_eq_true, Bool.not_eq_true'] at this
      exact ⟨this.1.1.2, this.2⟩
  have hnq2 : ∀ c ∈ url, (c == '"') = false ∧ (c == Py.bsl) = false := by
    intro c hc
    have := hu c hc
    simp only [shellPlain, Bool.and_eq_true, Bool.not_eq_true'] at this
    exact ⟨this.1.1.2, this.2⟩
  have h9 : Py.shlexGo Py.SMode.base ('"' :: (toL "$DATA_DIR/" ++ (rel ++ ['"']))) [] false
      = some [toL "$DATA_DIR/" ++ rel] := by
    rw [shlexGo_dq_enter, show toL "$DATA_DIR/" ++ (rel ++ ['"'])
        = (toL "$DATA_DIR/" ++ rel) ++ '"' :: [] from by simp [List.append_assoc]]
    rw [shlexGo_dq_scan _ hnq1 [] []]
    rw [List.append_nil, shlexGo_end, List.reverse_reverse]
  have h8 : Py.shlexGo Py.SMode.base
      (toL "-O" ++ ' ' :: ('"' :: (toL "$DATA_DIR/" ++ (rel ++ ['"'])))) [] false
      = some [toL "-O", toL "$DATA_DIR/" ++ rel] :=
    shlexGo_tok_cons _ _ _ (by decide) (by decide) h9
  have h7 : Py.shlexGo Py.SMode.base
      ('"' :: (url ++ '"' :: ' ' :: (toL "-O" ++ ' ' :: ('"' :: (toL "$DATA_DIR/"
        ++ (rel ++ ['"'])))))) [] false
      = some (url :: [toL "-O", toL "$DATA_DIR/" ++ rel]) := by
    rw [shlexGo_dq_enter, shlexGo_dq_scan url hnq2 _ [], List.append_nil, shlexGo_space, h8]
    simp
  have h6 : Py.shlexGo Py.SMode.base
      (toL "--timeout=60" ++ ' ' :: ('"' :: (url ++ '"' :: ' ' :: (toL "-O" ++ ' '
        :: ('"' :: (toL "$DATA_DIR/" ++ (rel ++ ['"']))))))) [] false
      = some (toL "--timeout=60" :: url :: [toL "-O", toL "$DATA_DIR/" ++ rel]) :=
    shlexGo_tok_cons _ _ _ (by decide) (by decide) h7
  have h5 := shlexGo_tok_cons (toL "5") _ _ (by decide) (by decide) h6
  have h4 := shlexGo_tok_cons (toL "-t") _ _ (by decide) (by decide) h5
  have h3 := shlexGo_tok_cons (toL "--retry-connrefused") _ _ (by decide) (by decide) h4
  have h2 := shlexGo_tok_cons (toL "-c") _ _ (by decide) (by decide) h3
  have h1 := shlexGo_tok_cons (toL "wget") _ _ (by decide) (by decide) h2
  have hCP : toL "wget -c --retry-connrefused -t 5 --timeout=60 \""
      = toL "wget" ++ ' ' :: (toL "-c" ++ ' ' :: (toL "--retry-connrefused" ++ ' '
        :: (toL "-t" ++ ' ' :: (toL "5" ++ ' ' :: (toL "--timeout=60" ++ ' '
        :: ('"' :: [])))))) := by decide
  have hM : toL "\" -O \"$DATA_DIR/"
      = '"' :: (' ' :: (toL "-O" ++ (' ' :: ('"' :: toL "$DATA_DIR/")))) := by decide
  have hline : toL "wget -c --retry-connrefused -t 5 --timeout=60 \"" ++ url
      ++ toL "\" -O \"$DATA_DIR/" ++ rel ++ toL "\""
      = toL "wget" ++ ' ' :: (toL "-c" ++ ' ' :: (toL "--retry-connrefused" ++ ' '
        :: (toL "-t" ++ ' ' :: (toL "5" ++ ' ' :: (toL "--timeout=60" ++ ' '
        :: ('"' :: (url ++ '"' :: ' ' :: (toL "-O" ++ ' ' :: ('"' :: (toL "$DATA_DIR/"
        ++ (rel ++ ['"']))))))))))) := by
    rw [hCP, hM, hQ]
    simp [List.append_assoc]
  have hsplit : Py.shlexSplit (toL "wget -c --retry-connrefused -t 5 --timeout=60 \"" ++ url
      ++ toL "\" -O \"$DATA_DIR/" ++ rel ++ toL "\"")
      = some [toL "wget", toL "-c", toL "--retry-connrefused", toL "-t", toL "5",
          toL "--timeout=60", url, toL "-O", toL "$DATA_DIR/" ++ rel] := by
    unfold Py.shlexSplit
    rw [hline]
    exact h1
  have hCPh : (toL "wget -c --retry-connrefused -t 5 --timeout=60 \"").head? = some 'w' := by
    decide
  have hhead : (toL "wget -c --retry-connrefused -t 5 --timeout=60 \"" ++ url
      ++ toL "\" -O \"$DATA_DIR/" ++ rel ++ toL "\"").head? = some 'w' := by
    apply head?_append_left
    apply head?_append_left
    apply head?_append_left
    apply head?_append_left
    exact hCPh
  have hlast : (toL "wget -c --retry-connrefused -t 5 --timeout=60 \"" ++ url
      ++ toL "\" -O \"$DATA_DIR/" ++ rel ++ toL "\"").getLast? = some '"' := by
    rw [hQ]
    exact List.getLast?_concat _
  unfold CT.lineTargets
  rw [pyStrip_id _
    (fun c hc => by rw [hhead] at hc; cases hc; decide)
    (fun c hc => by rw [hlast] at hc; cases hc; decide)]
  have hne := isEmpty_false_of_head? _ 'w' hhead
  rw [if_neg (show ¬ _ = true from fun hemp => by
        rw [hne] at hemp; exact Bool.noConfusion hemp),
    if_neg (by rw [hhead]; decide)]
  rw [hsplit]
  show CT.collectO [toL "wget", toL "-c", toL "--retry-connrefused", toL "-t", toL "5",
      toL "--timeout=60", url, toL "-O", toL "$DATA_DIR/" ++ rel]
    = [toL "$DATA_DIR/" ++ rel]
  rw [collectO_cons_ne _ _ _ (by decide), collectO_cons_ne _ _ _ (by decide),
    collectO_cons_ne _ _ _ (by decide), collectO_cons_ne _ _ _ (by decide),
    collectO_cons_ne _ _ _ (by decide), collectO_cons_ne _ _ _ (by decide),
    collectO_cons_ne _ _ _ hur, collectO_cons_O, collectO_single]


theorem lineTargets_mkdir (rel : List Char)
    (hr : ∀ c ∈ rel, shellPlain c = true) :
    CT.lineTargets (toL "mkdir -p \"$(dirname \"$DATA_DIR/" ++ rel ++ toL "\")\"") = [] := by
  have hplain2 : ∀ c ∈ toL "$DATA_DIR/" ++ rel, shellPlain c = true := by
    intro c hc
    rcases List.mem_append.mp hc with h | h
    · exact (by decide : ∀ c ∈ toL "$DATA_DIR/", shellPlain c = true) c h
    · exact hr c h
  have htok : Py.shlexGo Py.SMode.base
      ('"' :: (toL "$(dirname " ++ '"' :: ((toL "$DATA_DIR/" ++ rel)
        ++ '"' :: (')' :: ('"' :: []))))) [] false
      = some [toL "$(dirname " ++ ((toL "$DATA_DIR/" ++ rel) ++ [')'])] := by
    rw [shlexGo_dq_enter, shlexGo_dq_scan (toL "$(dirname ") (by decide) _ [],
      List.append_nil,
      shlexGo_plain (toL "$DATA_DIR/" ++ rel) hplain2 _ _ true]
    simp only [Bool.true_or]
    rw [shlexGo_dq_enter, show (')' :: ('"' :: ([] : List Char))) = [')'] ++ '"' :: [] from rfl,
      shlexGo_dq_scan [')'] (by decide) [] _, shlexGo_end]
    congr 1
    simp [List.reverse_append]
  have hm2 : Py.shlexGo Py.SMode.base
      (toL "-p" ++ ' ' :: ('"' :: (toL "$(dirname " ++ '"' :: ((toL "$DATA_DIR/" ++ rel)
        ++ '"' :: (')' :: ('"' :: [])))))) [] false
      = some [toL "-p", toL "$(dirname " ++ ((toL "$DATA_DIR/" ++ rel) ++ [')'])] :=
    shlexGo_tok_cons _ _ _ (by decide) (by decide) htok
  have hm1 := shlexGo_tok_cons (toL "mkdir") _ _ (by decide) (by decide) hm2
  have hCP2 : toL "mkdir -p \"$(dirname \"$DATA_DIR/"
      = toL "mkdir" ++ ' ' :: (toL "-p" ++ ' ' :: ('"' :: (toL "$(dirname "
        ++ '"' :: toL "$DATA_DIR/"))) := by decide
  have hSuf : toL "\")\"" = '"' :: (')' :: ('"' :: ([] : List Char))) := by decide
  have hline : toL "mkdir -p \"$(dirname \"$DATA_DIR/" ++ rel ++ toL "\")\""
      = toL "mkdir" ++ ' ' :: (toL "-p" ++ ' ' :: ('"' :: (toL "$(dirname "
        ++ '"' :: ((toL "$DATA_DIR/" ++ rel) ++ '"' :: (')' :: ('"' :: [])))))) := by
    rw [hCP2, hSuf]
    simp [List.append_assoc]
  have hsplit : Py.shlexSplit (toL "mkdir -p \"$(dirname \"$DATA_DIR/" ++ rel ++ toL "\")\"")
      = some [toL "mkdir", toL "-p", toL "$(dirname " ++ ((toL "$DATA_DIR/" ++ rel) ++ [')'])] := by
    unfold Py.shlexSplit
    rw [hline]
    exact hm1
  have hhead : (toL "mkdir -p \"$(dirname \"$DATA_DIR/" ++ rel ++ toL "\")\"").head?
      = some 'm' := by
    apply head?_append_left
    apply head?_append_left
    decide
  have hlast : (toL "mkdir -p \"$(dirname \"$DATA_DIR/" ++ rel ++ toL "\")\"").getLast?
      = some '"' := by
    rw [show toL "mkdir -p \"$(dirname \"$DATA_DIR/" ++ rel ++ toL "\")\""
        = (toL "mkdir -p \"$(dirname \"$DATA_DIR/" ++ rel ++ toL "\")") ++ ['"'] from by
      simp [List.append_assoc]
      decide]
    exact List.getLast?_concat _
  unfold CT.lineTargets
  rw [pyStrip_id _
    (fun c hc => by rw [hhead] at hc; cases hc; decide)
    (fun c hc => by rw [hlast] at hc; cases hc; decide)]
  have hne := isEmpty_false_of_head? _ 'm' hhead
  rw [if_neg (show ¬ _ = true from fun hemp => by
        rw [hne] at hemp; exact Bool.noConfusion hemp),
    if_neg (by rw [hhead]; decide)]
  rw [hsplit]
  show CT.collectO [toL "mkdir", toL "-p",
      toL "$(dirname " ++ ((toL "$DATA_DIR/" ++ rel) ++ [')'])] = []
  rw [collectO_cons_ne _ _ _ (by decide), collectO_cons_ne _ _ _ (by decide), collectO_single]


end OLMoData

namespace OLMoData

theorem pySplitC_append_line (l rest : List Char) (h : ('\n' : Char) ∉ l) :
    pySplitC '\n' (l ++ '\n' :: rest) = l :: pySplitC '\n' rest := by
  induction l with
  | nil => simp [pySplitC]
  | cons c cs ih =>
    have hc : (c == '\n') = false := by
      cases he : c == '\n'
      · rfl
      · rw [beq_iff_eq] at he
        exact absurd (by simp [he]) h
    simp only [List.cons_append, pySplitC, hc, Bool.false_eq_true, if_false]
    rw [show cs.append ('\n' :: rest) = cs ++ '\n' :: rest from rfl,
      ih (fun hm => h (List.mem_cons_of_mem _ hm))]

theorem extract_nil : CT.extract_targets_from_sh [] = [] := rfl

theorem extract_cons_line (l rest : List Char) (h : ('\n' : Char) ∉ l) :
    CT.extract_targets_from_sh (l ++ '\n' :: rest)
      = CT.lineTargets l ++ CT.extract_targets_from_sh rest := by
  unfold CT.extract_targets_from_sh
  rw [pySplitC_append_line l rest h]
  simp

theorem extract_joinNl_cons (l : List Char) (ls : List (List Char)) (rest : List Char)
    (h : ('\n' : Char) ∉ l) :
    CT.extract_targets_from_sh (MW.joinNl (l :: ls) ++ rest)
      = CT.lineTargets l ++ CT.extract_targets_from_sh (MW.joinNl ls ++ rest) := by
  have hshape : MW.joinNl (l :: ls) ++ rest = l ++ '\n' :: (MW.joinNl ls ++ rest) := by
    unfold MW.joinNl
    simp [List.append_assoc]
  rw [hshape]
  exact extract_cons_line l _ h

theorem no_nl_of_plain (s : List Char) (h : ∀ c ∈ s, shellPlain c = true) :
    ('\n' : Char) ∉ s :=
  fun hm => shellPlain_ne_nl '\n' (h '\n' hm) rfl

theorem no_nl_append (a b : List Char) (ha : ('\n' : Char) ∉ a) (hb : ('\n' : Char) ∉ b) :
    ('\n' : Char) ∉ a ++ b := by
  intro hm
  rcases List.mem_append.mp hm with h | h
  · exact ha h
  · exact hb h

end OLMoData

namespace OLMoData

theorem shlexQuote_safe (dd : List Char) (h1 : dd.isEmpty = false)
    (h2 : ∀ c ∈ dd, MW.quoteSafe c = true) : MW.shlexQuote dd = dd := by
  unfold MW.shlexQuote
  rw [if_neg (by simp [h1]), if_pos (by rw [List.all_eq_true]; exact h2)]

theorem extract_header (dd : List Char) (hdd : ∀ c ∈ dd, MW.quoteSafe c = true)
    (rest : List Char) :
    CT.extract_targets_from_sh (MW.joinNl (MW.headerLines dd) ++ rest)
      = CT.extract_targets_from_sh rest := by
  unfold MW.headerLines
  rw [extract_joinNl_cons _ _ _ (by decide),
    extract_joinNl_cons _ _ _ (by decide),
    extract_joinNl_cons _ _ _ (by simp),
    extract_joinNl_cons _ _ _ (by decide),
    extract_joinNl_cons _ _ _ (by decide),
    extract_joinNl_cons _ _ _ (by decide),
    extract_joinNl_cons _ _ _ (by decide),
    extract_joinNl_cons _ _ _ (by simp),
    extract_joinNl_cons _ _ _
      (no_nl_append _ _ (by decide) (fun hm => absurd (hdd _ hm) (by decide))),
    extract_joinNl_cons _ _ _ (by decide),
    extract_joinNl_cons _ _ _ (by decide)]
  rw [lineTargets_ddline dd hdd]
  have e1 : CT.lineTargets (toL "#!/usr/bin/env bash") = [] := by decide
  have e2 : CT.lineTargets (toL "set -Eeuo pipefail") = [] := by decide
  have e4 : CT.lineTargets (toL "if ! command -v wget >/dev/null 2>&1; then") = [] := by
    decide
  have e5 : CT.lineTargets (toL "  echo \"Error: wget is not installed.\" >&2") = [] := by
    decide
  have e6 : CT.lineTargets (toL "  exit 1") = [] := by decide
  have e7 : CT.lineTargets (toL "fi") = [] := by decide
  have e10 : CT.lineTargets (toL "echo \"Saving to: $DATA_DIR\"") = [] := by decide
  have e11 : CT.lineTargets (toL "mkdir -p \"$DATA_DIR\"") = [] := by decide
  rw [e1, e2, lineTargets_blank, e4, e5, e6, e7, e10, e11]
  simp [MW.joinNl]

theorem extract_block (url rel rest : List Char)
    (hu : ∀ c ∈ url, shellPlain c = true) (hur : ¬ url = toL "-O")
    (hr : ∀ c ∈ rel, shellPlain c = true) :
    CT.extract_targets_from_sh (MW.joinNl (MW.blockLines url rel) ++ rest)
      = (toL "$DATA_DIR/" ++ rel) :: CT.extract_targets_from_sh rest := by
  unfold MW.blockLines
  rw [extract_joinNl_cons _ _ _ (by simp),
    extract_joinNl_cons _ _ _ (no_nl_append _ _ (by decide) (no_nl_of_plain url hu)),
    extract_joinNl_cons _ _ _
      (no_nl_append _ _
        (no_nl_append _ _ (by decide) (no_nl_of_plain rel hr)) (by decide)),
    extract_joinNl_cons _ _ _
      (no_nl_append _ _
        (no_nl_append _ _
          (no_nl_append _ _
            (no_nl_append _ _ (by decide) (no_nl_of_plain url hu)) (by decide))
          (no_nl_of_plain rel hr)) (by decide))]
  rw [lineTargets_blank,
    show toL "# " ++ url = '#' :: (' ' :: url) from by
      rw [show toL "# " = ['#', ' '] from by decide]
      rfl,
    lineTargets_comment, lineTargets_mkdir rel hr, lineTargets_wget url rel hu hur hr]
  simp [MW.joinNl]

theorem extract_blocks (ps : List (List Char × List Char))
    (hps : ∀ p ∈ ps, (∀ c ∈ p.1, shellPlain c = true) ∧ ¬ p.1 = toL "-O"
        ∧ (∀ c ∈ p.2, shellPlain c = true)) :
    CT.extract_targets_from_sh
        ((ps.map (fun p => MW.joinNl (MW.blockLines p.1 p.2))).flatten)
      = ps.map (fun p => toL "$DATA_DIR/" ++ p.2) := by
  induction ps with
  | nil => exact extract_nil
  | cons p ps ih =>
    obtain ⟨hu, hur, hr⟩ := hps p (by simp)
    simp only [List.map_cons, List.flatten_cons]
    rw [extract_block p.1 p.2 _ hu hur hr, ih (fun q hq => hps q (by simp [hq]))]

/-- Claim C7: for every kept (url, rel) pair of shell-plain characters, the
verifier extracts from the synthesized script exactly one fetch target per
pair, in order, and recovers exactly `rel` (with absolute path dataRoot/rel)
from that target; in particular, for the spec's two-URL manifest with trim
prefix `/p/` and both files present, the verifier reports 0 missing and
last-existing target `a/y`. -/
theorem claim_C7 (dd : List Char) (ps : List (List Char × List Char))
    (hdd1 : dd.isEmpty = false) (hdd : ∀ c ∈ dd, MW.quoteSafe c = true)
    (hps : ∀ p ∈ ps, (∀ c ∈ p.1, shellPlain c = true) ∧ ¬ p.1 = toL "-O"
        ∧ (∀ c ∈ p.2, shellPlain c = true)) :
    CT.extract_targets_from_sh (MW.renderScript (MW.shlexQuote dd) ps)
      = ps.map (fun p => toL "$DATA_DIR/" ++ p.2)
    ∧ (∀ p ∈ ps, CT.normalize_to_relative (toL "$DATA_DIR/" ++ p.2) dd
        = (p.2, some (CT.pyPathJoin dd p.2)))
    ∧ CT.check (MW.renderScript (MW.shlexQuote (toL "/data"))
          (MW.pairs [toL "https://h/p/a/x", toL "https://h/p/a/y"] (toL "/p/")
            (MW.normalize_prefixes [])))
        (toL "/data") none (fun p => p == toL "/data/a/x" || p == toL "/data/a/y")
      = Except.ok
          { totalUnique := 2,
            existing := [(toL "a/x", toL "/data/a/x"), (toL "a/y", toL "/data/a/y")],
            missing := [],
            lastExisting := some (toL "a/y", toL "/data/a/y"),
            reportsNoExisting := false } := by
  refine ⟨?_, ?_, by rfl⟩
  · unfold MW.renderScript
    rw [shlexQuote_safe dd hdd1 hdd, extract_header dd hdd, extract_blocks ps hps]
  · intro p hp
    unfold CT.normalize_to_relative
    rw [if_pos (startsw_append_self _ _)]
    have h10 : (toL "$DATA_DIR/").length = 10 := by decide
    rw [← h10, List.drop_left]

/-- Witness for C7 at the spec's two-URL example pairs. -/
theorem claim_C7_witness :
    CT.extract_targets_from_sh (MW.renderScript (MW.shlexQuote (toL "/data"))
        [(toL "https://h/p/a/x", toL "a/x"), (toL "https://h/p/a/y", toL "a/y")])
      = [toL "$DATA_DIR/a/x", toL "$DATA_DIR/a/y"] := by
  have h := (claim_C7 (toL "/data")
      [(toL "https://h/p/a/x", toL "a/x"), (toL "https://h/p/a/y", toL "a/y")]
      (by decide) (by decide) (by decide)).1
  rw [h]
  decide

end OLMoData

namespace OLMoData

/-- A four-target script in the order A (missing), B (exists), C (missing),
D (exists) used by the spec's verifier-ordering example. -/
def abcdScript : List Char :=
  toL "DATA_DIR=/data\nwget \"u1\" -O \"$DATA_DIR/A\"\nwget \"u2\" -O \"$DATA_DIR/B\"\nwget \"u3\" -O \"$DATA_DIR/C\"\nwget \"u4\" -O \"$DATA_DIR/D\"\n"

/-- Filesystem with exactly B and D present under /data. -/
def abcdFs (p : List Char) : Bool :=
  p == toL "/data/B" || p == toL "/data/D"

/-- Claim C8: for every script, data root, filter and filesystem, the verifier
reports as last-existing exactly the last element of the existing list in
deduplicated script order (no timestamps are consulted — the model has none);
when nothing exists it reports that explicitly with no last-existing value. On
the spec's order [A missing, B exists, C missing, D exists] it reports D, and
with nothing on disk it reports no existing targets. -/
theorem claim_C8 (script dd : List Char) (fp : Option (List Char))
    (isFile : List Char → Bool) (r : CT.Report)
    (h : CT.check script dd fp isFile = Except.ok r) :
    r.lastExisting = r.existing.getLast?
    ∧ (r.existing = [] → r.lastExisting = none ∧ r.reportsNoExisting = true)
    ∧ CT.check abcdScript (toL "/data") none abcdFs
      = Except.ok
          { totalUnique := 4,
            existing := [(toL "B", toL "/data/B"), (toL "D", toL "/data/D")],
            missing := [(toL "A", toL "/data/A"), (toL "C", toL "/data/C")],
            lastExisting := some (toL "D", toL "/data/D"),
            reportsNoExisting := false }
    ∧ CT.check abcdScript (toL "/data") none (fun _ => false)
      = Except.ok
          { totalUnique := 4,
            existing := [],
            missing := [(toL "A", toL "/data/A"), (toL "B", toL "/data/B"),
              (toL "C", toL "/data/C"), (toL "D", toL "/data/D")],
            lastExisting := none,
            reportsNoExisting := true } := by
  refine ⟨?_, ?_, by rfl, by rfl⟩
  · dsimp only [CT.check] at h
    split at h
    · exact absurd h (by simp)
    · split at h
      · exact absurd h (by simp)
      · simp only [Except.ok.injEq] at h
        rw [← h]
  · intro hex
    dsimp only [CT.check] at h
    split at h
    · exact absurd h (by simp)
    · split at h
      · exact absurd h (by simp)
      · simp only [Except.ok.injEq] at h
        rw [← h] at hex ⊢
        simp only at hex ⊢
        rw [hex]
        exact ⟨rfl, rfl⟩

/-- Witness for C8 at the ABCD script: the reported last-existing target is the
last element of the existing list in script order, namely D. -/
theorem claim_C8_witness :
    (some (toL "D", toL "/data/D") : Option (List Char × List Char))
      = [(toL "B", toL "/data/B"), (toL "D", toL "/data/D")].getLast? :=
  (claim_C8 abcdScript (toL "/data") none abcdFs
      { totalUnique := 4,
        existing := [(toL "B", toL "/data/B"), (toL "D", toL "/data/D")],
        missing := [(toL "A", toL "/data/A"), (toL "C", toL "/data/C")],
        lastExisting := some (toL "D", toL "/data/D"),
        reportsNoExisting := false } (by rfl)).1

/-- A one-target script whose target has relative path a/x. -/
def c9Script : List Char :=
  toL "DATA_DIR=/data\nwget \"u\" -O \"$DATA_DIR/a/x\"\n"

/-- Claim C9 counterexample: the include-prefix argument `/a` is comma-expanded
and slash-stripped by the Download Engine and the Script Synthesizer (and then
matches the relative path a/x), but the Target Verifier's `--filter-prefix` is
matched verbatim: `/a` does not prefix a/x, every target is filtered out, and
the verifier exits with code 4 instead of keeping the item as the claim states. -/
theorem claim_C9_counterexample :
    DD.normalize_prefixes [toL "/a"] = [toL "a"]
    ∧ startsw (toL "a") (toL "a/x") = true
    ∧ MW.pairs [toL "https://h/a/x"] [] (DD.normalize_prefixes [toL "/a"])
        = [(toL "https://h/a/x", toL "a/x")]
    ∧ CT.check c9Script (toL "/data") (some (toL "/a")) (fun _ => true) = Except.error 4
    ∧ CT.keepTarget (some (toL "/a")) (toL "a/x") = false := by
  refine ⟨by decide, by decide, by rfl, by rfl, by decide⟩

/-- Claim C9 (amended): the Download Engine and the Script Synthesizer share the
comma-expanding, whitespace-stripping, slash-stripping prefix normalization and
keep an item iff no include prefix was supplied or some normalized prefix
starts the item's relative path (case-sensitively, by character equality); the
Target Verifier instead takes a single `--filter-prefix` matched verbatim —
no comma expansion, no slash stripping — and keeps everything when the prefix
is absent or empty. -/
theorem claim_C9_amended (url trimArg fp : List Char) (includes : List (List Char))
    (args : List (List Char)) (y : Yaml) (hfp : fp.isEmpty = false) :
    DD.normalize_prefixes args = MW.normalize_prefixes args
    ∧ DD.keptPairs y trimArg includes = MW.pairs (DD.gather_urls y) trimArg includes
    ∧ MW.pairs [url] trimArg includes
        = (if includes.isEmpty || includes.any
              (fun p => startsw p (MW.normalize_relative_path url trimArg))
           then [(url, MW.normalize_relative_path url trimArg)] else [])
    ∧ CT.keepTarget none (MW.normalize_relative_path url trimArg) = true
    ∧ CT.keepTarget (some fp) (MW.normalize_relative_path url trimArg)
        = startsw fp (MW.normalize_relative_path url trimArg) := by
  refine ⟨rfl, rfl, ?_, rfl, ?_⟩
  · cases hie : includes.isEmpty with
    | true => simp [MW.pairs, List.filterMap_cons, hie]
    | false =>
      cases han : includes.any
          (fun p => startsw p (MW.normalize_relative_path url trimArg)) with
      | true =>
        have hguard : (!includes.isEmpty
            && !(includes.any (fun p => startsw p (MW.normalize_relative_path url trimArg))))
            = false := by
          rw [han]
          simp
        simp only [MW.pairs, List.filterMap_cons, List.filterMap_nil, hguard,
          Bool.false_eq_true, if_false, hie, han, Bool.or_true, if_true]
        simp
      | false =>
        have hguard : (!includes.isEmpty
            && !(includes.any (fun p => startsw p (MW.normalize_relative_path url trimArg))))
            = true := by
          rw [hie, han]
          rfl
        simp only [MW.pairs, List.filterMap_cons, List.filterMap_nil, hguard, if_true,
          hie, han, Bool.or_false, Bool.false_eq_true, if_false]
        simp
  · simp [CT.keepTarget, hfp]

/-- Witness for the amended C9: on relative path a/x the verifier's literal
filter `/a` behaves as verbatim startswith (and rejects). -/
theorem claim_C9_amended_witness :
    CT.keepTarget (some (toL "/a")) (MW.normalize_relative_path (toL "https://h/a/x") [])
      = startsw (toL "/a") (MW.normalize_relative_path (toL "https://h/a/x") []) :=
  (claim_C9_amended (toL "https://h/a/x") [] (toL "/a") [] [] (Yaml.list [])
    (by decide)).2.2.2.2

end OLMoData
